import Mathlib

/-!
JBOD linear-address reader (mdadm.c).

A shallow embedding of `src/mdadm.c`: the mount flag, the command encoder, the
address translator, the seek controller and the read assembler, together with a
model of the disk array device the code talks to through `jbod_operation`.

Conventions.
* `uint32_t` values are natural numbers; every `uint32_t` operation that can wrap
  is written with an explicit `% 4294967296`.
* A pointer to bytes is an `Option (List Nat)`: `none` is `NULL`, `some b` is a
  buffer whose cells are the elements of `b`.
* A failed `assert` aborts the program; functions that can reach one return an
  `Option`, with `none` standing for the abort.
* The global mount flag and the device are threaded explicitly as a `State`.
-/

namespace Mdadm

/-! ## Constants of `jbod.h` -/

/-- Modelled from the spec: `JBOD_BLOCK_SIZE` of the absent header `jbod.h`
(BLOCK_SIZE = 256 bytes). -/
def JBOD_BLOCK_SIZE : Nat := 256

/-- Modelled from the spec: `JBOD_DISK_SIZE` of the absent header `jbod.h`
(DISK_SIZE = 65,536 bytes, 256 blocks of 256 bytes). -/
def JBOD_DISK_SIZE : Nat := 65536

/-- Modelled from the spec: opcode `JBOD_MOUNT` of the absent header `jbod.h`
(the spec fixes Mount = 0 and lists the others in order). -/
def JBOD_MOUNT : Nat := 0

/-- Modelled from the spec: opcode `JBOD_UNMOUNT` of the absent header `jbod.h`. -/
def JBOD_UNMOUNT : Nat := 1

/-- Modelled from the spec: opcode `JBOD_SEEK_TO_DISK` of the absent header `jbod.h`. -/
def JBOD_SEEK_TO_DISK : Nat := 2

/-- Modelled from the spec: opcode `JBOD_SEEK_TO_BLOCK` of the absent header `jbod.h`. -/
def JBOD_SEEK_TO_BLOCK : Nat := 3

/-- Modelled from the spec: opcode `JBOD_READ_BLOCK` of the absent header `jbod.h`. -/
def JBOD_READ_BLOCK : Nat := 4

/-! ## The disk array device -/

/-- Device state: the bytes of the array (`contents d b o` is byte `o` of block `b`
of disk `d`), the cursor (current disk, current block) and the list of command
words received so far, oldest first. -/
structure Jbod where
  contents : Nat → Nat → Nat → Nat
  disk : Nat
  block : Nat
  trace : List Nat

/-- The 256 bytes of block `b` of disk `d`. -/
def blockBytes (c : Nat → Nat → Nat → Nat) (d b : Nat) : List Nat :=
  (List.range 256).map (c d b)

/-- Modelled from the spec: the external function `jbod_operation(op, block)`, whose
code is not part of the repository. The device records the command word, decodes
the opcode from bits [31:26], the disk from bits [25:22] and the block operand from
bits [21:0]. SeekToDisk selects the disk, SeekToBlock selects the block, ReadBlock
delivers the 256 bytes of the block under the cursor into the caller's buffer
(when one is supplied) and then advances the cursor to the next block of the same
disk. Mount and Unmount move nothing. -/
def jbod_operation (dev : Jbod) (op : Nat) (block : Option (List Nat)) :
    Jbod × Option (List Nat) :=
  if op >>> 26 = JBOD_SEEK_TO_DISK then
    ({ dev with disk := (op >>> 22) &&& 15, trace := dev.trace ++ [op] }, block)
  else if op >>> 26 = JBOD_SEEK_TO_BLOCK then
    ({ dev with block := op &&& 4194303, trace := dev.trace ++ [op] }, block)
  else if op >>> 26 = JBOD_READ_BLOCK then
    ({ dev with block := dev.block + 1, trace := dev.trace ++ [op] },
      block.map (fun _ => blockBytes dev.contents dev.disk dev.block))
  else
    ({ dev with trace := dev.trace ++ [op] }, block)

/-- The byte stored at linear address `a` of the array laid out disk after disk,
block after block: disk `a / 65536`, block `a / 256 % 256`, offset `a % 256`. -/
def byteAt (c : Nat → Nat → Nat → Nat) (a : Nat) : Nat :=
  c (a / 65536) (a / 256 % 256) (a % 256)

/-! ## Program state -/

/-- The global variable `global` of mdadm.c (`int global = 0;`) and the device. -/
structure State where
  global : Int
  dev : Jbod

/-- The state at program start: `global = 0`; the device is whatever it is. -/
def initState (dev : Jbod) : State := ⟨0, dev⟩

/-- The system is Unmounted: the test `global == 0` of all three entry points. -/
def Unmounted (st : State) : Prop := st.global = 0

/-- The system is Mounted: `global == 0` fails. -/
def Mounted (st : State) : Prop := st.global ≠ 0

instance (st : State) : Decidable (Unmounted st) := by unfold Unmounted; infer_instance

instance (st : State) : Decidable (Mounted st) := by unfold Mounted; infer_instance

/-! ## mdadm.c -/

/-- `encode_op`: `CMD << 26 | diskID << 22 | blockID`, stored in a `uint32_t`. -/
def encode_op (CMD diskID blockID : Nat) : Nat :=
  ((CMD <<< 26) ||| (diskID <<< 22) ||| blockID) % 4294967296

/-- `mdadm_mount`: the return value and the state after the call. -/
def mdadm_mount (st : State) : Int × State :=
  if st.global = 0 then
    let g := st.global + 1
    let op := encode_op 0 0 0
    (1, ⟨g, (jbod_operation st.dev op none).1⟩)
  else (-1, st)

/-- `mdadm_unmount`: the return value and the state after the call. -/
def mdadm_unmount (st : State) : Int × State :=
  if st.global = 0 then (-1, st)
  else
    let op := encode_op JBOD_UNMOUNT 0 0
    (1, ⟨0, (jbod_operation st.dev op none).1⟩)

/-- `translated_addr`: the triple `(diskID, blockID, offset)` written through the
three out-pointers. -/
def translated_addr (linear_addr : Nat) : Nat × Nat × Nat :=
  let diskID := linear_addr / JBOD_DISK_SIZE
  let local_addr := linear_addr % JBOD_DISK_SIZE
  let blockID := local_addr / JBOD_BLOCK_SIZE
  let offset := local_addr % JBOD_BLOCK_SIZE
  (diskID, blockID, offset)

/-- `seek`: the two assertions, then SeekToDisk and SeekToBlock. `none` is a failed
assertion. -/
def seek (dev : Jbod) (diskID blockID : Nat) : Option Jbod :=
  if 0 ≤ diskID ∧ diskID ≤ 15 then
    if 0 ≤ blockID ∧ blockID ≤ 255 then
      let op := encode_op JBOD_SEEK_TO_DISK diskID 0
      let dev1 := (jbod_operation dev op none).1
      let op := encode_op JBOD_SEEK_TO_BLOCK 0 blockID
      some (jbod_operation dev1 op none).1
    else none
  else none

/-- `memcpy(dst + dstOff, src + srcOff, n)`: cell `dstOff + k` of `dst` receives
cell `srcOff + k` of `src`, for `k < n`. -/
def memcpy (dst : List Nat) (dstOff : Nat) (src : List Nat) (srcOff : Nat) : Nat → List Nat
  | 0 => dst
  | n + 1 => (memcpy dst dstOff src srcOff n).set (dstOff + n) (src.getD (srcOff + n) 0)

/-- Conversion of a `uint32_t` to the `int` that `mdadm_read` returns. -/
def int_of_u32 (x : Nat) : Int :=
  if x % 4294967296 < 2147483648 then ((x % 4294967296 : Nat) : Int)
  else ((x % 4294967296 : Nat) : Int) - 4294967296

/-- `uint32_t` subtraction. -/
def sub32 (a b : Nat) : Nat := (a + 4294967296 - b % 4294967296) % 4294967296

/-- `uint32_t` addition. -/
def add32 (a b : Nat) : Nat := (a + b) % 4294967296

/-- The scratch array `uint8_t buf2[256]` as declared: 256 cells, never read before
a ReadBlock has filled them. -/
def buf2_init : List Nat := List.replicate 256 0

/-- The local variables that the full-block loop of `mdadm_read` reads and writes. -/
structure Locals where
  dev : Jbod
  buf2 : List Nat
  buf : Option (List Nat)
  templen : Nat
  newlen : Nat

/-- The loop `while (templen > 256) { ... }` of `mdadm_read`. -/
def mdadm_read_loop (op : Nat) (v : Locals) : Locals :=
  if 256 < v.templen then
    let r := jbod_operation v.dev op (some v.buf2)
    let buf2 := r.2.getD v.buf2
    let buf := v.buf.map (fun b => memcpy b v.newlen buf2 0 256)
    mdadm_read_loop op ⟨r.1, buf2, buf, sub32 v.templen 256, add32 v.newlen 256⟩
  else v
termination_by v.templen
decreasing_by
  simp only [sub32]
  omega

/-- What a call of `mdadm_read` leaves behind: the return value, the state and the
caller's buffer. -/
structure ReadResult where
  ret : Int
  st : State
  buf : Option (List Nat)

/-- `mdadm_read`. `none` is an abort through a failed assertion of `seek`. -/
def mdadm_read (st : State) (addr len : Nat) (buf : Option (List Nat)) : Option ReadResult :=
  if st.global = 0 then some ⟨-1, st, buf⟩
  else if addr < 0 ∨ addr > 1048576 - 1 then some ⟨-1, st, buf⟩
  else if (len + addr) % 4294967296 ≥ 1048576 - 1 then some ⟨-1, st, buf⟩
  else if len > 1024 then some ⟨-1, st, buf⟩
  else if len ≠ 0 ∧ buf = none then some ⟨-1, st, buf⟩
  else if len = 0 ∧ buf = none then some ⟨int_of_u32 len, st, buf⟩
  else
    let diskID := (translated_addr addr).1
    let blockID := (translated_addr addr).2.1
    let offset := (translated_addr addr).2.2
    (seek st.dev diskID blockID).bind fun dev1 =>
    let op := encode_op JBOD_READ_BLOCK 0 0
    let buf2 := buf2_init
    let templen := len
    if len ≤ 256 - offset then
      let r := jbod_operation dev1 op (some buf2)
      let buf2 := r.2.getD buf2
      let buf := buf.map (fun b => memcpy b 0 buf2 offset len)
      some ⟨int_of_u32 len, ⟨st.global, r.1⟩, buf⟩
    else
      let r := jbod_operation dev1 op (some buf2)
      let buf2 := r.2.getD buf2
      let newlen := 256 - offset
      let buf := buf.map (fun b => memcpy b 0 buf2 offset newlen)
      let templen := sub32 templen newlen
      (if blockID = 255 then seek r.1 (diskID + 1) 0 else some r.1).bind fun dev2 =>
      let v := mdadm_read_loop op ⟨dev2, buf2, buf, templen, newlen⟩
      (if blockID = 255 then seek v.dev (diskID + 1) 0 else some v.dev).bind fun dev3 =>
      let r := jbod_operation dev3 op (some v.buf2)
      let buf2 := r.2.getD v.buf2
      let buf := v.buf.map (fun b => memcpy b v.newlen buf2 0 v.templen)
      some ⟨int_of_u32 len, ⟨st.global, r.1⟩, buf⟩

/-! ## Intermediate states of `mdadm_read`

Names for the states that a call of `mdadm_read` passes through; they are used to
state what the code computes, and are derived from the code above. -/

/-- The device after `seek(diskID, blockID)` and the first ReadBlock. -/
def devAfterFirst (dev : Jbod) (addr : Nat) : Jbod :=
  { dev with
    disk := addr / 65536, block := addr % 65536 / 256 + 1,
    trace := dev.trace ++
      [encode_op JBOD_SEEK_TO_DISK (addr / 65536) 0,
       encode_op JBOD_SEEK_TO_BLOCK 0 (addr % 65536 / 256)] ++ [268435456] }

/-- The device after `seek(d, 0)`. -/
def reseek (dev : Jbod) (d : Nat) : Jbod :=
  { dev with
    disk := d, block := 0,
    trace := dev.trace ++ [encode_op JBOD_SEEK_TO_DISK d 0, encode_op JBOD_SEEK_TO_BLOCK 0 0] }

/-- The local variables on entry to the full-block loop, when the device is `dev2`:
`buf2` holds the first block, its tail has been copied to the front of `buf`. -/
def loopEntry (dev2 : Jbod) (c : Nat → Nat → Nat → Nat) (addr len : Nat) (b : List Nat) :
    Locals :=
  ⟨dev2, blockBytes c (addr / 65536) (addr % 65536 / 256),
   some (memcpy b 0 (blockBytes c (addr / 65536) (addr % 65536 / 256))
     (addr % 65536 % 256) (256 - addr % 65536 % 256)),
   len - (256 - addr % 65536 % 256), 256 - addr % 65536 % 256⟩

/-- The last ReadBlock and copy of the multi-block path, made on device `dev3` with
the locals `v` left by the loop, and the value returned. -/
def lastBlock (g : Int) (len : Nat) (dev3 : Jbod) (v : Locals) : ReadResult :=
  ⟨(len : Int),
   ⟨g, { dev3 with block := dev3.block + 1, trace := dev3.trace ++ [268435456] }⟩,
   v.buf.map (fun x =>
     memcpy x v.newlen (blockBytes dev3.contents dev3.disk dev3.block) 0 v.templen)⟩

/-- The command words that an accepted call of `mdadm_read` with a buffer sends, in
order: the first seek and ReadBlock; on the multi-block path the ReadBlocks of the
loop and the last ReadBlock, with `seek(diskID + 1, 0)` before and after the loop
when the first block is block 255. -/
def readCommands (addr len : Nat) : List Nat :=
  if len ≤ 256 - addr % 65536 % 256 then
    [encode_op JBOD_SEEK_TO_DISK (addr / 65536) 0,
     encode_op JBOD_SEEK_TO_BLOCK 0 (addr % 65536 / 256), 268435456]
  else if addr % 65536 / 256 = 255 then
    [encode_op JBOD_SEEK_TO_DISK (addr / 65536) 0,
     encode_op JBOD_SEEK_TO_BLOCK 0 (addr % 65536 / 256), 268435456] ++
    [encode_op JBOD_SEEK_TO_DISK (addr / 65536 + 1) 0, encode_op JBOD_SEEK_TO_BLOCK 0 0] ++
    List.replicate ((len - (256 - addr % 65536 % 256) - 1) / 256) 268435456 ++
    [encode_op JBOD_SEEK_TO_DISK (addr / 65536 + 1) 0, encode_op JBOD_SEEK_TO_BLOCK 0 0] ++
    [268435456]
  else
    [encode_op JBOD_SEEK_TO_DISK (addr / 65536) 0,
     encode_op JBOD_SEEK_TO_BLOCK 0 (addr % 65536 / 256), 268435456] ++
    List.replicate ((len - (256 - addr % 65536 % 256) - 1) / 256) 268435456 ++
    [268435456]

/-- The byte that an accepted call of `mdadm_read` leaves in cell `i < len` of the
destination, as a function of the device contents, `addr` and `len` alone: the
first block supplies `256 - offset` bytes; the following cells come from the
blocks under the auto-advancing cursor, after `seek(diskID + 1, 0)` when the first
block is block 255, and then the last chunk comes from block 0 of disk
`diskID + 1` again. -/
def deliveredByte (c : Nat → Nat → Nat → Nat) (addr len i : Nat) : Nat :=
  if len ≤ 256 - addr % 65536 % 256 ∨ i < 256 - addr % 65536 % 256 then
    c (addr / 65536) (addr % 65536 / 256) (addr % 65536 % 256 + i)
  else if addr % 65536 / 256 = 255 then
    if i < 256 - addr % 65536 % 256 +
        256 * ((len - (256 - addr % 65536 % 256) - 1) / 256) then
      c (addr / 65536 + 1) ((i - (256 - addr % 65536 % 256)) / 256)
        ((i - (256 - addr % 65536 % 256)) % 256)
    else
      c (addr / 65536 + 1) 0
        (i - (256 - addr % 65536 % 256 +
          256 * ((len - (256 - addr % 65536 % 256) - 1) / 256)))
  else
    c (addr / 65536) (addr % 65536 / 256 + 1 + (i - (256 - addr % 65536 % 256)) / 256)
      ((i - (256 - addr % 65536 % 256)) % 256)

/-! ## The `memcpy` calls of `mdadm_read` -/

/-- The `memcpy` calls made by the loop of `mdadm_read` started with locals `v`, in
order, each as (destination offset, source offset in `buf2`, count). The locals
evolve exactly as in `mdadm_read_loop`. -/
def mdadm_read_loop_copies (op : Nat) (v : Locals) : List (Nat × Nat × Nat) :=
  if 256 < v.templen then
    let r := jbod_operation v.dev op (some v.buf2)
    let buf2 := r.2.getD v.buf2
    let buf := v.buf.map (fun b => memcpy b v.newlen buf2 0 256)
    (v.newlen, 0, 256) ::
      mdadm_read_loop_copies op ⟨r.1, buf2, buf, sub32 v.templen 256, add32 v.newlen 256⟩
  else []
termination_by v.templen
decreasing_by
  simp only [sub32]
  omega

/-- The `memcpy` calls made by `mdadm_read`, in order, each as (destination offset,
source offset in `buf2`, count); the control flow is that of `mdadm_read`. -/
def mdadm_read_copies (st : State) (addr len : Nat) (buf : Option (List Nat)) :
    List (Nat × Nat × Nat) :=
  if st.global = 0 then []
  else if addr < 0 ∨ addr > 1048576 - 1 then []
  else if (len + addr) % 4294967296 ≥ 1048576 - 1 then []
  else if len > 1024 then []
  else if len ≠ 0 ∧ buf = none then []
  else if len = 0 ∧ buf = none then []
  else
    let diskID := (translated_addr addr).1
    let blockID := (translated_addr addr).2.1
    let offset := (translated_addr addr).2.2
    match seek st.dev diskID blockID with
    | none => []
    | some dev1 =>
      let op := encode_op JBOD_READ_BLOCK 0 0
      let buf2 := buf2_init
      let templen := len
      if len ≤ 256 - offset then [(0, offset, len)]
      else
        let r := jbod_operation dev1 op (some buf2)
        let buf2 := r.2.getD buf2
        let newlen := 256 - offset
        let buf := buf.map (fun b => memcpy b 0 buf2 offset newlen)
        let templen := sub32 templen newlen
        match (if blockID = 255 then seek r.1 (diskID + 1) 0 else some r.1) with
        | none => [(0, offset, newlen)]
        | some dev2 =>
          let v := mdadm_read_loop op ⟨dev2, buf2, buf, templen, newlen⟩
          [(0, offset, newlen)] ++
            mdadm_read_loop_copies op ⟨dev2, buf2, buf, templen, newlen⟩ ++
            [(v.newlen, 0, v.templen)]

/-- The chunks `(dst, src, n)` of a list follow one another without gap or overlap
from position `p`: each starts where the previous one ended. The result is the
end position. -/
def contiguousFrom : Nat → List (Nat × Nat × Nat) → Option Nat
  | p, [] => some p
  | p, c :: cs => if c.1 = p then contiguousFrom (p + c.2.2) cs else none

/-! ## Sequences of calls -/

/-- A call of one of the three entry points of mdadm.h. -/
inductive Call where
  | mount : Call
  | unmount : Call
  | read : Nat → Nat → Option (List Nat) → Call

/-- One call: the value returned and the state afterwards (`none` if the call
aborts). -/
def callStep (st : State) : Call → Option (Int × State)
  | Call.mount => some (mdadm_mount st)
  | Call.unmount => some (mdadm_unmount st)
  | Call.read addr len buf => (mdadm_read st addr len buf).map (fun r => (r.ret, r.st))

/-- A sequence of calls, run in order from state `st`. -/
def runCalls (st : State) : List Call → Option State
  | [] => some st
  | c :: cs => (callStep st c).bind (fun r => runCalls r.2 cs)

/-- One command word seen by an observer of the trace who tracks whether the last
Mount is still in force: Mount is in order only when unmounted, Unmount and the
three I/O commands only when mounted, and no other opcode is in order. -/
def traceStep (mounted : Bool) (w : Nat) : Option Bool :=
  if w >>> 26 = JBOD_MOUNT then (if mounted then none else some true)
  else if w >>> 26 = JBOD_UNMOUNT then (if mounted then some false else none)
  else if w >>> 26 = JBOD_SEEK_TO_DISK ∨ w >>> 26 = JBOD_SEEK_TO_BLOCK ∨
      w >>> 26 = JBOD_READ_BLOCK then (if mounted then some true else none)
  else none

/-- The observer run over a trace: `some m` when every command was in order, with
`m` telling whether the array is mounted at the end. -/
def traceRun : Bool → List Nat → Option Bool
  | m, [] => some m
  | m, w :: ws => (traceStep m w).bind (fun m2 => traceRun m2 ws)

/-- A trace is well ordered: starting unmounted, Mount and Unmount alternate and
every I/O command falls between a Mount and the next Unmount. -/
def WellOrdered (trace : List Nat) : Prop := (traceRun false trace).isSome = true

/-- Test used to count ReadBlock words in a trace: the opcode field is
`JBOD_READ_BLOCK`. -/
def isReadBlock (w : Nat) : Bool := decide (w >>> 26 = JBOD_READ_BLOCK)

/-! ## Sample data -/

/-- A device whose bytes differ between neighbouring blocks and disks. -/
def sampleDev : Jbod := ⟨fun d b o => (7 * d + 3 * b + o) % 256, 0, 0, []⟩

/-! ## Device and encoder lemmas -/

theorem encode_read : encode_op JBOD_READ_BLOCK 0 0 = 268435456 := by decide

theorem encode_seek_disk_opcode : ∀ d, d < 16 → encode_op JBOD_SEEK_TO_DISK d 0 >>> 26 = 2 := by
  decide

theorem encode_seek_disk_field :
    ∀ d, d < 16 → (encode_op JBOD_SEEK_TO_DISK d 0 >>> 22) &&& 15 = d := by
  decide

set_option maxRecDepth 100000 in
theorem encode_seek_block_opcode :
    ∀ b, b < 256 → encode_op JBOD_SEEK_TO_BLOCK 0 b >>> 26 = 3 := by
  decide

set_option maxRecDepth 100000 in
theorem encode_seek_block_field :
    ∀ b, b < 256 → encode_op JBOD_SEEK_TO_BLOCK 0 b &&& 4194303 = b := by
  decide

/-- Effect of a ReadBlock command on the device and on the scratch buffer. -/
theorem jbod_read_block (dev : Jbod) (b : List Nat) :
    jbod_operation dev 268435456 (some b) =
      ({ dev with block := dev.block + 1, trace := dev.trace ++ [268435456] },
        some (blockBytes dev.contents dev.disk dev.block)) := by
  have h : (268435456 : Nat) >>> 26 = 4 := by decide
  simp [jbod_operation, h, JBOD_SEEK_TO_DISK, JBOD_SEEK_TO_BLOCK, JBOD_READ_BLOCK]

/-- Within the asserted ranges `seek` does not abort, moves the cursor to
`(diskID, blockID)` and appends the two seek words to the trace. -/
theorem seek_eq (dev : Jbod) (d b : Nat) (hd : d ≤ 15) (hb : b ≤ 255) :
    seek dev d b = some
      { dev with disk := d, block := b,
                 trace := dev.trace ++ [encode_op JBOD_SEEK_TO_DISK d 0,
                                        encode_op JBOD_SEEK_TO_BLOCK 0 b] } := by
  have h1 := encode_seek_disk_opcode d (by omega)
  have h2 := encode_seek_disk_field d (by omega)
  have h3 := encode_seek_block_opcode b (by omega)
  have h4 := encode_seek_block_field b (by omega)
  simp only [JBOD_SEEK_TO_DISK, JBOD_SEEK_TO_BLOCK] at h1 h2 h3 h4
  simp [seek, hd, hb, jbod_operation, h1, h2, h3, h4, JBOD_SEEK_TO_DISK, JBOD_SEEK_TO_BLOCK,
    JBOD_READ_BLOCK]

theorem blockBytes_length (c : Nat → Nat → Nat → Nat) (d b : Nat) :
    (blockBytes c d b).length = 256 := by
  simp [blockBytes]

theorem blockBytes_getD (c : Nat → Nat → Nat → Nat) (d b o : Nat) (ho : o < 256) :
    (blockBytes c d b).getD o 0 = c d b o := by
  simp [blockBytes, List.getD_eq_getElem?_getD, List.getElem?_range ho]

/-! ## memcpy lemmas -/

theorem memcpy_length (dst : List Nat) (dstOff : Nat) (src : List Nat) (srcOff n : Nat) :
    (memcpy dst dstOff src srcOff n).length = dst.length := by
  induction n with
  | zero => rfl
  | succ n ih => simp [memcpy, ih]

/-- Cell `i` after a `memcpy`: a copied cell inside the destination holds the source
byte, every other cell is unchanged. -/
theorem memcpy_getElem? (dst : List Nat) (dstOff : Nat) (src : List Nat) (srcOff n i : Nat) :
    (memcpy dst dstOff src srcOff n)[i]? =
      if dstOff ≤ i ∧ i < dstOff + n ∧ i < dst.length then
        some (src.getD (srcOff + (i - dstOff)) 0)
      else dst[i]? := by
  induction n with
  | zero =>
    rw [if_neg (by omega)]
    rfl
  | succ n ih =>
    simp only [memcpy, List.getElem?_set, memcpy_length, ih]
    by_cases h1 : dstOff + n = i
    · subst h1
      by_cases h2 : dstOff + n < dst.length
      · simp [h2]
      · have h3 : dst[dstOff + n]? = none := List.getElem?_eq_none (by omega)
        simp [h2, h3]
    · by_cases h2 : dstOff ≤ i ∧ i < dstOff + n ∧ i < dst.length
      · have h3 : dstOff ≤ i ∧ i < dstOff + (n + 1) ∧ i < dst.length := by omega
        simp [h1, h2, h3]
      · have h3 : ¬ (dstOff ≤ i ∧ i < dstOff + (n + 1) ∧ i < dst.length) := by omega
        simp [h1, h2, h3]

/-! ## Read assembler: validation and the single-block path -/

theorem int_of_u32_small (len : Nat) (h : len ≤ 1024) : int_of_u32 len = (len : Int) := by
  have h1 : len % 4294967296 = len := Nat.mod_eq_of_lt (by omega)
  have h2 : len < 2147483648 := by omega
  simp [int_of_u32, h1, h2]

/-- A request that fails validation returns -1 and leaves the state and the
buffer as they were. -/
theorem mdadm_read_reject (st : State) (addr len : Nat) (buf : Option (List Nat))
    (h : ¬ (st.global ≠ 0 ∧ addr + len < 1048575 ∧ len ≤ 1024 ∧ (len = 0 ∨ buf ≠ none))) :
    mdadm_read st addr len buf = some ⟨-1, st, buf⟩ := by
  unfold mdadm_read
  by_cases h1 : st.global = 0
  · rw [if_pos h1]
  by_cases h2 : addr < 0 ∨ addr > 1048576 - 1
  · rw [if_neg h1, if_pos h2]
  by_cases h3 : (len + addr) % 4294967296 ≥ 1048576 - 1
  · rw [if_neg h1, if_neg h2, if_pos h3]
  by_cases h4 : len > 1024
  · rw [if_neg h1, if_neg h2, if_neg h3, if_pos h4]
  by_cases h5 : len ≠ 0 ∧ buf = none
  · rw [if_neg h1, if_neg h2, if_neg h3, if_neg h4, if_pos h5]
  exfalso
  apply h
  refine ⟨h1, by omega, by omega, ?_⟩
  by_cases h6 : len = 0
  · exact Or.inl h6
  · exact Or.inr (fun hb => h5 ⟨h6, hb⟩)

/-- A zero-length request with a null buffer on a mounted system returns 0 at once. -/
theorem mdadm_read_zero_null (st : State) (addr : Nat) (hg : st.global ≠ 0)
    (ha : addr < 1048575) :
    mdadm_read st addr 0 none = some ⟨0, st, none⟩ := by
  unfold mdadm_read
  have h2 : ¬ (addr < 0 ∨ addr > 1048576 - 1) := by omega
  have h3 : ¬ ((0 + addr) % 4294967296 ≥ 1048576 - 1) := by omega
  have h4 : ¬ (0 > 1024) := by omega
  have h5 : ¬ ((0 : Nat) ≠ 0 ∧ (none : Option (List Nat)) = none) := by simp
  have h6 : (0 : Nat) = 0 ∧ (none : Option (List Nat)) = none := ⟨rfl, rfl⟩
  rw [if_neg hg, if_neg h2, if_neg h3, if_neg h4, if_neg h5, if_pos h6]
  rfl

/-- The single-block path: an accepted request with `len <= 256 - offset` seeks,
reads one block and copies `len` bytes from offset `offset` of that block. -/
theorem mdadm_read_single (st : State) (addr len : Nat) (b : List Nat)
    (hg : st.global ≠ 0) (ha : addr + len < 1048575)
    (hs : len ≤ 256 - addr % 65536 % 256) :
    mdadm_read st addr len (some b) =
      some ⟨(len : Int),
        ⟨st.global,
          { st.dev with
            disk := addr / 65536, block := addr % 65536 / 256 + 1,
            trace := st.dev.trace ++
              [encode_op JBOD_SEEK_TO_DISK (addr / 65536) 0,
               encode_op JBOD_SEEK_TO_BLOCK 0 (addr % 65536 / 256)] ++ [268435456] }⟩,
        some (memcpy b 0 (blockBytes st.dev.contents (addr / 65536) (addr % 65536 / 256))
          (addr % 65536 % 256) len)⟩ := by
  unfold mdadm_read
  have h2 : ¬ (addr < 0 ∨ addr > 1048576 - 1) := by omega
  have h3 : ¬ ((len + addr) % 4294967296 ≥ 1048576 - 1) := by omega
  have h4 : ¬ (len > 1024) := by omega
  have h5 : ¬ (len ≠ 0 ∧ (some b : Option (List Nat)) = none) := by simp
  have h6 : ¬ (len = 0 ∧ (some b : Option (List Nat)) = none) := by simp
  rw [if_neg hg, if_neg h2, if_neg h3, if_neg h4, if_neg h5, if_neg h6]
  simp only [translated_addr, JBOD_DISK_SIZE, JBOD_BLOCK_SIZE]
  rw [seek_eq st.dev (addr / 65536) (addr % 65536 / 256) (by omega) (by omega)]
  simp only [Option.some_bind, encode_read, jbod_read_block, if_pos hs, Option.getD_some,
    Option.map_some', int_of_u32_small len (by omega)]

/-! ## Read assembler: the full-block loop -/

theorem mdadm_read_loop_done (op : Nat) (v : Locals) (h : ¬ 256 < v.templen) :
    mdadm_read_loop op v = v := by
  rw [mdadm_read_loop, if_neg h]

theorem mdadm_read_loop_step (v : Locals) (h : 256 < v.templen) :
    mdadm_read_loop 268435456 v =
      mdadm_read_loop 268435456
        ⟨{ v.dev with block := v.dev.block + 1, trace := v.dev.trace ++ [268435456] },
         blockBytes v.dev.contents v.dev.disk v.dev.block,
         v.buf.map (fun b =>
           memcpy b v.newlen (blockBytes v.dev.contents v.dev.disk v.dev.block) 0 256),
         sub32 v.templen 256, add32 v.newlen 256⟩ := by
  rw [mdadm_read_loop, if_pos h]
  simp only [jbod_read_block, Option.getD_some]

/-- The full-block loop, run on a buffer `b` with `templen` bytes still to copy:
it performs some number `k` of iterations, each one a ReadBlock of the block
under the cursor copied whole to the next 256 cells of the buffer, and stops
with between 1 and 256 bytes left. No counter wraps. -/
theorem mdadm_read_loop_spec (n : Nat) :
    ∀ (v : Locals) (b : List Nat), v.templen = n → v.buf = some b →
      v.templen < 4294967296 → v.newlen + v.templen < 4294967296 →
      ∃ (k : Nat) (b2 : List Nat),
        256 * k + (mdadm_read_loop 268435456 v).templen = v.templen ∧
        (mdadm_read_loop 268435456 v).templen ≤ 256 ∧
        (0 < v.templen → 0 < (mdadm_read_loop 268435456 v).templen) ∧
        (mdadm_read_loop 268435456 v).newlen = v.newlen + 256 * k ∧
        (mdadm_read_loop 268435456 v).dev.contents = v.dev.contents ∧
        (mdadm_read_loop 268435456 v).dev.disk = v.dev.disk ∧
        (mdadm_read_loop 268435456 v).dev.block = v.dev.block + k ∧
        (mdadm_read_loop 268435456 v).dev.trace =
          v.dev.trace ++ List.replicate k 268435456 ∧
        (mdadm_read_loop 268435456 v).buf = some b2 ∧
        b2.length = b.length ∧
        ∀ i, b2[i]? =
          if v.newlen ≤ i ∧ i < v.newlen + 256 * k ∧ i < b.length then
            some (v.dev.contents v.dev.disk (v.dev.block + (i - v.newlen) / 256)
              ((i - v.newlen) % 256))
          else b[i]? := by
  induction n using Nat.strong_induction_on with
  | _ n ih =>
    intro v b hn hb ht hnl
    by_cases h : 256 < v.templen
    · rw [mdadm_read_loop_step v h]
      have hsub : sub32 v.templen 256 = v.templen - 256 := by
        simp only [sub32]; omega
      have hadd : add32 v.newlen 256 = v.newlen + 256 := by
        simp only [add32]; omega
      rw [hsub, hadd, hb]
      simp only [Option.map_some']
      obtain ⟨k, b2, h1, h2, h3, h4, h5, h6, h7, h8, h9, h10, h11⟩ :=
        ih (v.templen - 256) (by omega)
          ⟨{ v.dev with block := v.dev.block + 1, trace := v.dev.trace ++ [268435456] },
           blockBytes v.dev.contents v.dev.disk v.dev.block,
           some (memcpy b v.newlen (blockBytes v.dev.contents v.dev.disk v.dev.block) 0 256),
           v.templen - 256, v.newlen + 256⟩
          (memcpy b v.newlen (blockBytes v.dev.contents v.dev.disk v.dev.block) 0 256)
          rfl rfl (by simp only; omega) (by simp only; omega)
      simp only at h1 h2 h3 h4 h5 h6 h7 h8 h9 h10 h11
      refine ⟨k + 1, b2, by omega, h2, fun _ => h3 (by omega), by omega, h5, h6, by omega,
        ?_, h9, ?_, ?_⟩
      · rw [h8, List.replicate_succ, List.append_assoc]
        rfl
      · rw [h10, memcpy_length]
      · intro i
        rw [h11 i, memcpy_getElem?, memcpy_length]
        by_cases c1 : v.newlen + 256 ≤ i ∧ i < v.newlen + 256 + 256 * k ∧ i < b.length
        · have c2 : v.newlen ≤ i ∧ i < v.newlen + 256 * (k + 1) ∧ i < b.length := by omega
          rw [if_pos c1, if_pos c2]
          have e1 : v.dev.block + 1 + (i - (v.newlen + 256)) / 256 =
              v.dev.block + (i - v.newlen) / 256 := by omega
          have e2 : (i - (v.newlen + 256)) % 256 = (i - v.newlen) % 256 := by omega
          rw [e1, e2]
        · rw [if_neg c1]
          by_cases c3 : v.newlen ≤ i ∧ i < v.newlen + 256 ∧ i < b.length
          · have c2 : v.newlen ≤ i ∧ i < v.newlen + 256 * (k + 1) ∧ i < b.length := by omega
            rw [if_pos c3, if_pos c2, blockBytes_getD _ _ _ _ (by omega)]
            have e1 : (i - v.newlen) / 256 = 0 := by omega
            have e2 : (i - v.newlen) % 256 = i - v.newlen := by omega
            rw [e1, e2, Nat.zero_add, Nat.add_zero]
          · have c2 : ¬ (v.newlen ≤ i ∧ i < v.newlen + 256 * (k + 1) ∧ i < b.length) := by
              omega
            rw [if_neg c3, if_neg c2]
    · rw [mdadm_read_loop_done _ v h]
      refine ⟨0, b, by omega, by omega, fun h0 => h0, by omega, rfl, rfl, by omega, ?_, hb,
        rfl, ?_⟩
      · simp
      · intro i
        rw [if_neg (by omega)]

/-! ## Read assembler: the multi-block path -/

/-- The multi-block path when the first block is not block 255: no extra seek is
made; the first block is read and its tail copied, the loop runs, and one last
block is read and `templen` bytes of it are copied. -/
theorem mdadm_read_multi (st : State) (addr len : Nat) (b : List Nat)
    (hg : st.global ≠ 0) (ha : addr + len < 1048575) (hl : len ≤ 1024)
    (hm : ¬ len ≤ 256 - addr % 65536 % 256) (hblk : addr % 65536 / 256 ≠ 255) :
    mdadm_read st addr len (some b) =
      some (lastBlock st.global len
        (mdadm_read_loop 268435456
          (loopEntry (devAfterFirst st.dev addr) st.dev.contents addr len b)).dev
        (mdadm_read_loop 268435456
          (loopEntry (devAfterFirst st.dev addr) st.dev.contents addr len b))) := by
  unfold mdadm_read
  have h2 : ¬ (addr < 0 ∨ addr > 1048576 - 1) := by omega
  have h3 : ¬ ((len + addr) % 4294967296 ≥ 1048576 - 1) := by omega
  have h4 : ¬ (len > 1024) := by omega
  have h5 : ¬ (len ≠ 0 ∧ (some b : Option (List Nat)) = none) := by simp
  have h6 : ¬ (len = 0 ∧ (some b : Option (List Nat)) = none) := by simp
  rw [if_neg hg, if_neg h2, if_neg h3, if_neg h4, if_neg h5, if_neg h6]
  simp only [translated_addr, JBOD_DISK_SIZE, JBOD_BLOCK_SIZE]
  rw [seek_eq st.dev (addr / 65536) (addr % 65536 / 256) (by omega) (by omega)]
  have hsub : sub32 len (256 - addr % 65536 % 256) = len - (256 - addr % 65536 % 256) := by
    simp only [sub32]; omega
  simp only [Option.some_bind, encode_read, jbod_read_block, if_neg hm, if_neg hblk,
    Option.getD_some, Option.map_some', int_of_u32_small len hl, hsub]
  rfl

/-- The multi-block path when the first block is block 255: `seek(diskID + 1, 0)` is
made after the first block, the loop runs, `seek(diskID + 1, 0)` is made a second
time, and the last block is read from there. -/
theorem mdadm_read_cross (st : State) (addr len : Nat) (b : List Nat)
    (hg : st.global ≠ 0) (ha : addr + len < 1048575) (hl : len ≤ 1024)
    (hm : ¬ len ≤ 256 - addr % 65536 % 256) (hblk : addr % 65536 / 256 = 255) :
    mdadm_read st addr len (some b) =
      some (lastBlock st.global len
        (reseek (mdadm_read_loop 268435456
          (loopEntry (reseek (devAfterFirst st.dev addr) (addr / 65536 + 1))
            st.dev.contents addr len b)).dev (addr / 65536 + 1))
        (mdadm_read_loop 268435456
          (loopEntry (reseek (devAfterFirst st.dev addr) (addr / 65536 + 1))
            st.dev.contents addr len b))) := by
  unfold mdadm_read
  have h2 : ¬ (addr < 0 ∨ addr > 1048576 - 1) := by omega
  have h3 : ¬ ((len + addr) % 4294967296 ≥ 1048576 - 1) := by omega
  have h4 : ¬ (len > 1024) := by omega
  have h5 : ¬ (len ≠ 0 ∧ (some b : Option (List Nat)) = none) := by simp
  have h6 : ¬ (len = 0 ∧ (some b : Option (List Nat)) = none) := by simp
  rw [if_neg hg, if_neg h2, if_neg h3, if_neg h4, if_neg h5, if_neg h6]
  simp only [translated_addr, JBOD_DISK_SIZE, JBOD_BLOCK_SIZE]
  rw [seek_eq st.dev (addr / 65536) (addr % 65536 / 256) (by omega) (by omega)]
  have hsub : sub32 len (256 - addr % 65536 % 256) = len - (256 - addr % 65536 % 256) := by
    simp only [sub32]; omega
  have hd : addr / 65536 + 1 ≤ 15 := by omega
  simp only [Option.some_bind, encode_read, jbod_read_block, if_neg hm, if_pos hblk,
    Option.getD_some, Option.map_some', int_of_u32_small len hl, hsub,
    seek_eq _ (addr / 65536 + 1) 0 hd (by omega)]
  rfl

theorem contents_congr (c : Nat → Nat → Nat → Nat) {d d2 b b2 o o2 : Nat}
    (h1 : d = d2) (h2 : b = b2) (h3 : o = o2) : some (c d b o) = some (c d2 b2 o2) := by
  rw [h1, h2, h3]

/-- The loop started from `loopEntry`: after it, the first `256 - offset + 256 * k`
cells of the buffer hold the tail of the first block followed by the `k` blocks
read at the cursor positions `dev2.block`, `dev2.block + 1`, ... of disk
`dev2.disk`, and between 1 and 256 bytes remain to be copied. -/
theorem mdadm_read_loop_entry (dev2 : Jbod) (c : Nat → Nat → Nat → Nat) (addr len : Nat)
    (b : List Nat) (hl : len ≤ 1024) (hm : ¬ len ≤ 256 - addr % 65536 % 256) :
    ∃ (k : Nat) (b2 : List Nat),
      256 * k + (mdadm_read_loop 268435456 (loopEntry dev2 c addr len b)).templen =
        len - (256 - addr % 65536 % 256) ∧
      (mdadm_read_loop 268435456 (loopEntry dev2 c addr len b)).templen ≤ 256 ∧
      0 < (mdadm_read_loop 268435456 (loopEntry dev2 c addr len b)).templen ∧
      (mdadm_read_loop 268435456 (loopEntry dev2 c addr len b)).newlen =
        256 - addr % 65536 % 256 + 256 * k ∧
      (mdadm_read_loop 268435456 (loopEntry dev2 c addr len b)).dev.contents = dev2.contents ∧
      (mdadm_read_loop 268435456 (loopEntry dev2 c addr len b)).dev.disk = dev2.disk ∧
      (mdadm_read_loop 268435456 (loopEntry dev2 c addr len b)).dev.block = dev2.block + k ∧
      (mdadm_read_loop 268435456 (loopEntry dev2 c addr len b)).dev.trace =
        dev2.trace ++ List.replicate k 268435456 ∧
      (mdadm_read_loop 268435456 (loopEntry dev2 c addr len b)).buf = some b2 ∧
      b2.length = b.length ∧
      ∀ i, b2[i]? =
        if i < 256 - addr % 65536 % 256 + 256 * k ∧ i < b.length then
          (if i < 256 - addr % 65536 % 256 then
            some (c (addr / 65536) (addr % 65536 / 256) (addr % 65536 % 256 + i))
          else
            some (dev2.contents dev2.disk
              (dev2.block + (i - (256 - addr % 65536 % 256)) / 256)
              ((i - (256 - addr % 65536 % 256)) % 256)))
        else b[i]? := by
  obtain ⟨k, b2, h1, h2, h3, h4, h5, h6, h7, h8, h9, h10, h11⟩ :=
    mdadm_read_loop_spec _ (loopEntry dev2 c addr len b)
      (memcpy b 0 (blockBytes c (addr / 65536) (addr % 65536 / 256))
        (addr % 65536 % 256) (256 - addr % 65536 % 256))
      rfl rfl (by simp only [loopEntry]; omega) (by simp only [loopEntry]; omega)
  have h3b : 0 < (mdadm_read_loop 268435456 (loopEntry dev2 c addr len b)).templen :=
    h3 (by simp only [loopEntry]; omega)
  have h10b : b2.length = b.length := by rw [h10, memcpy_length]
  refine ⟨k, b2, h1, h2, h3b, h4, h5, h6, h7, h8, h9, h10b, ?_⟩
  intro i
  have h11i := h11 i
  simp only [loopEntry, memcpy_length] at h11i
  rw [h11i, memcpy_getElem?]
  by_cases c1 : 256 - addr % 65536 % 256 ≤ i ∧ i < 256 - addr % 65536 % 256 + 256 * k ∧
      i < b.length
  · rw [if_pos c1, if_pos (by omega), if_neg (by omega)]
  · rw [if_neg c1]
    by_cases c2 : i < 256 - addr % 65536 % 256 ∧ i < b.length
    · rw [if_pos (by omega), if_pos (by omega), if_pos (by omega),
        blockBytes_getD _ _ _ _ (by omega)]
      exact contents_congr _ rfl rfl (by omega)
    · rw [if_neg (by omega), if_neg (by omega)]

/-! ## Linear-address arithmetic -/

/-- A byte of the first block: `i` bytes past `addr`, still inside the block. -/
theorem lin_first (addr i : Nat) (h : i < 256 - addr % 65536 % 256) :
    (addr + i) / 65536 = addr / 65536 ∧ (addr + i) / 256 % 256 = addr % 65536 / 256 ∧
    (addr + i) % 256 = addr % 65536 % 256 + i := by
  refine ⟨by omega, by omega, by omega⟩

/-- A byte past the first block, on the same disk as `addr`. -/
theorem lin_rest (addr i : Nat) (h : 256 - addr % 65536 % 256 ≤ i)
    (hsame : (addr + i) / 65536 = addr / 65536) :
    addr % 65536 / 256 + 1 + (i - (256 - addr % 65536 % 256)) / 256 = (addr + i) / 256 % 256 ∧
    (i - (256 - addr % 65536 % 256)) % 256 = (addr + i) % 256 := by
  refine ⟨by omega, by omega⟩

/-- A byte past block 255 of its disk lies on the next disk, counted from block 0. -/
theorem lin_cross (addr i : Nat) (hblk : addr % 65536 / 256 = 255)
    (h : 256 - addr % 65536 % 256 ≤ i) (hi : i < 1024) :
    addr / 65536 + 1 = (addr + i) / 65536 ∧
    0 + (i - (256 - addr % 65536 % 256)) / 256 = (addr + i) / 256 % 256 ∧
    (i - (256 - addr % 65536 % 256)) % 256 = (addr + i) % 256 := by
  refine ⟨by omega, by omega, by omega⟩

/-! ## Read assembler: bytes delivered -/

/-- Bytes delivered by the multi-block path when the whole range lies on one disk:
cell `i` holds the byte at linear address `addr + i`. -/
theorem mdadm_read_multi_bytes (st : State) (addr len : Nat) (b : List Nat)
    (hg : st.global ≠ 0) (ha : addr + len < 1048575) (hl : len ≤ 1024)
    (hm : ¬ len ≤ 256 - addr % 65536 % 256) (hsame : (addr + len - 1) / 65536 = addr / 65536)
    (hlen : len ≤ b.length) :
    ∃ (r : ReadResult) (b2 : List Nat),
      mdadm_read st addr len (some b) = some r ∧ r.ret = (len : Int) ∧ r.buf = some b2 ∧
      b2.length = b.length ∧
      ∀ i, i < len → b2[i]? = some (byteAt st.dev.contents (addr + i)) := by
  have hblk : addr % 65536 / 256 ≠ 255 := by omega
  have hdisk : ∀ i, i < len → (addr + i) / 65536 = addr / 65536 := fun i hi => by omega
  rw [mdadm_read_multi st addr len b hg ha hl hm hblk]
  obtain ⟨k, b2, h1, h2, h3, h4, h5, h6, h7, _, h9, h10, h11⟩ :=
    mdadm_read_loop_entry (devAfterFirst st.dev addr) st.dev.contents addr len b hl hm
  generalize mdadm_read_loop 268435456
    (loopEntry (devAfterFirst st.dev addr) st.dev.contents addr len b) = v at *
  simp only [devAfterFirst] at h5 h6 h7 h11
  refine ⟨_, memcpy b2 v.newlen (blockBytes v.dev.contents v.dev.disk v.dev.block) 0 v.templen,
    rfl, rfl, ?_, ?_, ?_⟩
  · simp only [lastBlock, h9, Option.map_some']
  · rw [memcpy_length, h10]
  · intro i hi
    have hd := hdisk i hi
    clear hdisk hsame ha hblk
    rw [memcpy_getElem?, h11 i, h5, h6, h7, h4, h10, byteAt]
    by_cases c2 : i < 256 - addr % 65536 % 256
    · obtain ⟨e1, e2, e3⟩ := lin_first addr i c2
      have n1 : ¬ (256 - addr % 65536 % 256 + 256 * k ≤ i ∧
          i < 256 - addr % 65536 % 256 + 256 * k + v.templen ∧ i < b.length) :=
        fun h => absurd c2 (by omega)
      have n2 : i < 256 - addr % 65536 % 256 + 256 * k ∧ i < b.length :=
        ⟨by omega, by omega⟩
      rw [if_neg n1, if_pos n2, if_pos c2]
      exact contents_congr _ e1.symm e2.symm e3.symm
    · obtain ⟨e2, e3⟩ := lin_rest addr i (by omega) hd
      generalize 256 - addr % 65536 % 256 = n0 at *
      by_cases c1 : n0 + 256 * k ≤ i
      · have n1 : n0 + 256 * k ≤ i ∧ i < n0 + 256 * k + v.templen ∧ i < b.length :=
          ⟨c1, by omega, by omega⟩
        rw [if_pos n1, blockBytes_getD _ _ _ _ (by omega)]
        refine contents_congr _ hd.symm ?_ ?_
        · rw [← e2]
          have : (i - n0) / 256 = k := by omega
          rw [this]
        · rw [← e3]
          omega
      · have n1 : ¬ (n0 + 256 * k ≤ i ∧ i < n0 + 256 * k + v.templen ∧ i < b.length) :=
          fun h => c1 h.1
        have n2 : i < n0 + 256 * k ∧ i < b.length := ⟨by omega, by omega⟩
        rw [if_neg n1, if_pos n2, if_neg c2]
        exact contents_congr _ hd.symm e2 e3

/-- Bytes delivered by the multi-block path when the first block is block 255 of
its disk: every cell before the last chunk holds the byte at linear address
`addr + i`; the last chunk, read after the second `seek(diskID + 1, 0)`, holds
the leading bytes of block 0 of the next disk. -/
theorem mdadm_read_cross_bytes (st : State) (addr len : Nat) (b : List Nat)
    (hg : st.global ≠ 0) (ha : addr + len < 1048575) (hl : len ≤ 1024)
    (hm : ¬ len ≤ 256 - addr % 65536 % 256) (hblk : addr % 65536 / 256 = 255)
    (hlen : len ≤ b.length) :
    ∃ (r : ReadResult) (b2 : List Nat) (k t : Nat),
      mdadm_read st addr len (some b) = some r ∧ r.ret = (len : Int) ∧ r.buf = some b2 ∧
      b2.length = b.length ∧
      256 * k + t = len - (256 - addr % 65536 % 256) ∧ 0 < t ∧ t ≤ 256 ∧
      ∀ i, i < len → b2[i]? =
        if i < 256 - addr % 65536 % 256 + 256 * k then
          some (byteAt st.dev.contents (addr + i))
        else
          some (st.dev.contents (addr / 65536 + 1) 0
            (i - (256 - addr % 65536 % 256 + 256 * k))) := by
  rw [mdadm_read_cross st addr len b hg ha hl hm hblk]
  obtain ⟨k, b2, h1, h2, h3, h4, h5, h6, h7, _, h9, h10, h11⟩ :=
    mdadm_read_loop_entry (reseek (devAfterFirst st.dev addr) (addr / 65536 + 1))
      st.dev.contents addr len b hl hm
  generalize mdadm_read_loop 268435456
    (loopEntry (reseek (devAfterFirst st.dev addr) (addr / 65536 + 1))
      st.dev.contents addr len b) = v at *
  simp only [devAfterFirst, reseek] at h5 h6 h7 h11
  refine ⟨_, memcpy b2 v.newlen (blockBytes st.dev.contents (addr / 65536 + 1) 0) 0 v.templen,
    k, v.templen, rfl, rfl, ?_, ?_, h1, h3, h2, ?_⟩
  · simp only [lastBlock, reseek, h9, h5, Option.map_some']
  · rw [memcpy_length, h10]
  · intro i hi
    clear ha
    rw [memcpy_getElem?, h11 i, h4, h10, byteAt]
    by_cases c2 : i < 256 - addr % 65536 % 256
    · obtain ⟨e1, e2, e3⟩ := lin_first addr i c2
      have n1 : ¬ (256 - addr % 65536 % 256 + 256 * k ≤ i ∧
          i < 256 - addr % 65536 % 256 + 256 * k + v.templen ∧ i < b.length) :=
        fun h => absurd c2 (by omega)
      have n2 : i < 256 - addr % 65536 % 256 + 256 * k ∧ i < b.length :=
        ⟨by omega, by omega⟩
      rw [if_neg n1, if_pos n2, if_pos c2, if_pos n2.1]
      exact contents_congr _ e1.symm e2.symm e3.symm
    · obtain ⟨e1, e2, e3⟩ := lin_cross addr i hblk (by omega) (by omega)
      clear hblk
      generalize 256 - addr % 65536 % 256 = n0 at *
      by_cases c1 : n0 + 256 * k ≤ i
      · have n1 : n0 + 256 * k ≤ i ∧ i < n0 + 256 * k + v.templen ∧ i < b.length :=
          ⟨c1, by omega, by omega⟩
        rw [if_pos n1, if_neg (by omega), blockBytes_getD _ _ _ _ (by omega)]
        exact contents_congr _ rfl rfl (by omega)
      · have n1 : ¬ (n0 + 256 * k ≤ i ∧ i < n0 + 256 * k + v.templen ∧ i < b.length) :=
          fun h => c1 h.1
        have n2 : i < n0 + 256 * k ∧ i < b.length := ⟨by omega, by omega⟩
        rw [if_neg n1, if_pos n2, if_neg c2, if_pos n2.1]
        exact contents_congr _ e1 e2 e3

/-- An accepted request does not abort and returns `len`. -/
theorem mdadm_read_accept_ret (st : State) (addr len : Nat) (buf : Option (List Nat))
    (h : st.global ≠ 0 ∧ addr + len < 1048575 ∧ len ≤ 1024 ∧ (len = 0 ∨ buf ≠ none)) :
    ∃ r : ReadResult, mdadm_read st addr len buf = some r ∧ r.ret = (len : Int) := by
  obtain ⟨hg, ha, hl, hb⟩ := h
  cases buf with
  | none =>
    have h0 : len = 0 := by
      rcases hb with h0 | h0
      · exact h0
      · exact absurd rfl h0
    subst h0
    exact ⟨_, mdadm_read_zero_null st addr hg (by omega), rfl⟩
  | some b =>
    by_cases hs : len ≤ 256 - addr % 65536 % 256
    · exact ⟨_, mdadm_read_single st addr len b hg ha hs, rfl⟩
    · by_cases hblk : addr % 65536 / 256 = 255
      · exact ⟨_, mdadm_read_cross st addr len b hg ha hl hs hblk, rfl⟩
      · exact ⟨_, mdadm_read_multi st addr len b hg ha hl hs hblk, rfl⟩

/-! ## Mount state machine -/

/-- C5: `mdadm_mount` returns 1 exactly when the system is Unmounted; then the state
becomes Mounted (`global = 1`), exactly one word is appended to the command trace,
the Mount word, whose opcode, disk and block fields are all 0, and the cursor and
contents are untouched. When the system is Mounted it returns -1 and the state,
trace included, is unchanged. -/
theorem mdadm_mount_spec (st : State) :
    ((mdadm_mount st).1 = 1 ↔ Unmounted st) ∧
    (Unmounted st →
      (mdadm_mount st).1 = 1 ∧ Mounted (mdadm_mount st).2 ∧ (mdadm_mount st).2.global = 1 ∧
      (mdadm_mount st).2.dev.trace = st.dev.trace ++ [encode_op JBOD_MOUNT 0 0] ∧
      encode_op JBOD_MOUNT 0 0 >>> 26 = JBOD_MOUNT ∧ JBOD_MOUNT = 0 ∧
      (encode_op JBOD_MOUNT 0 0 >>> 22) &&& 15 = 0 ∧
      encode_op JBOD_MOUNT 0 0 &&& 4194303 = 0 ∧
      (mdadm_mount st).2.dev.disk = st.dev.disk ∧
      (mdadm_mount st).2.dev.block = st.dev.block ∧
      (mdadm_mount st).2.dev.contents = st.dev.contents) ∧
    (Mounted st →
      (mdadm_mount st).1 = -1 ∧ (mdadm_mount st).2 = st ∧ Mounted (mdadm_mount st).2) := by
  have e0 : encode_op 0 0 0 = 0 := by decide
  have e1 : encode_op JBOD_MOUNT 0 0 = 0 := by decide
  by_cases h : st.global = 0
  · simp [mdadm_mount, Unmounted, Mounted, h, e0, e1, jbod_operation, JBOD_MOUNT,
      JBOD_SEEK_TO_DISK, JBOD_SEEK_TO_BLOCK, JBOD_READ_BLOCK]
  · simp [mdadm_mount, Unmounted, Mounted, h]

/-- Witness of `mdadm_mount_spec` on the initial state of the sample device. -/
theorem mdadm_mount_spec_witness :
    Unmounted (initState sampleDev) ∧
    (mdadm_mount (initState sampleDev)).1 = 1 ∧
    (mdadm_mount (initState sampleDev)).2.dev.trace = [] ++ [encode_op JBOD_MOUNT 0 0] ∧
    Mounted (mdadm_mount (initState sampleDev)).2 ∧
    (mdadm_mount (mdadm_mount (initState sampleDev)).2).1 = -1 :=
  have h0 : Unmounted (initState sampleDev) := by decide
  have h1 := (mdadm_mount_spec (initState sampleDev)).2.1 h0
  ⟨h0, h1.1, h1.2.2.2.1, h1.2.1,
    ((mdadm_mount_spec (mdadm_mount (initState sampleDev)).2).2.2 h1.2.1).1⟩

/-- C6: `mdadm_unmount` returns 1 exactly when the system is Mounted; then the state
becomes Unmounted, exactly one word is appended to the command trace, the Unmount
word (opcode `JBOD_UNMOUNT`, disk and block fields 0), and cursor and contents are
untouched. When the system is Unmounted it returns -1 and the state, trace
included, is unchanged. From the initial state the calls mount, mount, unmount,
unmount return 1, -1, 1, -1. -/
theorem mdadm_unmount_spec (st : State) :
    ((mdadm_unmount st).1 = 1 ↔ Mounted st) ∧
    (Mounted st →
      (mdadm_unmount st).1 = 1 ∧ Unmounted (mdadm_unmount st).2 ∧
      (mdadm_unmount st).2.dev.trace = st.dev.trace ++ [encode_op JBOD_UNMOUNT 0 0] ∧
      encode_op JBOD_UNMOUNT 0 0 >>> 26 = JBOD_UNMOUNT ∧
      (encode_op JBOD_UNMOUNT 0 0 >>> 22) &&& 15 = 0 ∧
      encode_op JBOD_UNMOUNT 0 0 &&& 4194303 = 0 ∧
      (mdadm_unmount st).2.dev.disk = st.dev.disk ∧
      (mdadm_unmount st).2.dev.block = st.dev.block ∧
      (mdadm_unmount st).2.dev.contents = st.dev.contents) ∧
    (Unmounted st →
      (mdadm_unmount st).1 = -1 ∧ (mdadm_unmount st).2 = st ∧
      Unmounted (mdadm_unmount st).2) ∧
    (∀ dev : Jbod,
      (mdadm_mount (initState dev)).1 = 1 ∧
      (mdadm_mount (mdadm_mount (initState dev)).2).1 = -1 ∧
      (mdadm_unmount (mdadm_mount (mdadm_mount (initState dev)).2).2).1 = 1 ∧
      (mdadm_unmount
        (mdadm_unmount (mdadm_mount (mdadm_mount (initState dev)).2).2).2).1 = -1) := by
  have e1 : encode_op 1 0 0 = 67108864 := by decide
  have e2 : (67108864 : Nat) >>> 26 = 1 := by decide
  have e3 : ((67108864 : Nat) >>> 22) &&& 15 = 0 := by decide
  have e4 : (67108864 : Nat) &&& 4194303 = 0 := by decide
  refine ⟨?_, ?_, ?_, ?_⟩
  · by_cases h : st.global = 0 <;> simp [mdadm_unmount, Mounted, h]
  · intro h
    simp [mdadm_unmount, Unmounted, Mounted] at h ⊢
    simp [h, e1, e2, e3, e4, jbod_operation, JBOD_UNMOUNT, JBOD_SEEK_TO_DISK,
      JBOD_SEEK_TO_BLOCK, JBOD_READ_BLOCK]
    decide
  · intro h
    simp [mdadm_unmount, Unmounted] at h ⊢
    simp [h]
  · intro dev
    simp [mdadm_mount, mdadm_unmount, initState]

/-- Witness of `mdadm_unmount_spec` on a mounted state of the sample device. -/
theorem mdadm_unmount_spec_witness :
    Mounted ⟨1, sampleDev⟩ ∧
    (mdadm_unmount ⟨1, sampleDev⟩).1 = 1 ∧
    Unmounted (mdadm_unmount ⟨1, sampleDev⟩).2 ∧
    (mdadm_unmount (mdadm_unmount ⟨1, sampleDev⟩).2).1 = -1 :=
  have h0 : Mounted ⟨1, sampleDev⟩ := by decide
  have h1 := (mdadm_unmount_spec ⟨1, sampleDev⟩).2.1 h0
  ⟨h0, h1.1, h1.2.1, ((mdadm_unmount_spec (mdadm_unmount ⟨1, sampleDev⟩).2).2.2.1 h1.2.1).1⟩

/-! ## Address translator -/

/-- C10: for every address, `translated_addr` yields a block number and an offset in
0..255 that recompose to the address, the disk number is in 0..15 exactly when the
address is at most 1,048,575, and the translation is injective. -/
theorem translated_addr_spec (addr : Nat) :
    0 ≤ (translated_addr addr).2.1 ∧ (translated_addr addr).2.1 ≤ 255 ∧
    0 ≤ (translated_addr addr).2.2 ∧ (translated_addr addr).2.2 ≤ 255 ∧
    (translated_addr addr).1 * 65536 + (translated_addr addr).2.1 * 256 +
      (translated_addr addr).2.2 = addr ∧
    ((0 ≤ (translated_addr addr).1 ∧ (translated_addr addr).1 ≤ 15) ↔ addr ≤ 1048575) ∧
    (∀ addr2 : Nat, translated_addr addr2 = translated_addr addr → addr2 = addr) := by
  simp only [translated_addr, JBOD_DISK_SIZE, JBOD_BLOCK_SIZE, Prod.mk.injEq]
  refine ⟨by omega, by omega, by omega, by omega, by omega, by omega, ?_⟩
  intro addr2 h
  omega

/-- Witness of `translated_addr_spec` at address 983,032 (disk 14, block 255,
offset 248). -/
theorem translated_addr_spec_witness :
    translated_addr 983032 = (14, 255, 248) ∧
    ∀ addr2 : Nat, translated_addr addr2 = translated_addr 983032 → addr2 = 983032 :=
  ⟨by decide, (translated_addr_spec 983032).2.2.2.2.2.2⟩

/-! ## Read assembler: the claims -/

/-- C1: for every mount state, address, length and destination (null or not),
`mdadm_read` does not abort; it returns `len` exactly when the system is mounted,
`addr + len < 1,048,575` as an unbounded sum, `len <= 1024` and (`len = 0` or the
destination is non-null), and it returns -1 in every other case. -/
theorem mdadm_read_return (st : State) (addr len : Nat) (buf : Option (List Nat)) :
    ∃ r : ReadResult, mdadm_read st addr len buf = some r ∧
      (r.ret = (len : Int) ↔
        (Mounted st ∧ addr + len < 1048575 ∧ len ≤ 1024 ∧ (len = 0 ∨ buf ≠ none))) ∧
      (r.ret = -1 ↔
        ¬ (Mounted st ∧ addr + len < 1048575 ∧ len ≤ 1024 ∧ (len = 0 ∨ buf ≠ none))) ∧
      (r.ret = (len : Int) ∨ r.ret = -1) := by
  by_cases h : st.global ≠ 0 ∧ addr + len < 1048575 ∧ len ≤ 1024 ∧ (len = 0 ∨ buf ≠ none)
  · obtain ⟨r, hr, hret⟩ := mdadm_read_accept_ret st addr len buf h
    refine ⟨r, hr, ⟨fun _ => h, fun _ => hret⟩, ⟨fun h1 => ?_, fun h1 => absurd h h1⟩,
      Or.inl hret⟩
    rw [hret] at h1
    omega
  · refine ⟨_, mdadm_read_reject st addr len buf h, ⟨fun h1 => ?_, fun h1 => absurd h1 h⟩,
      ⟨fun _ => h, fun _ => rfl⟩, Or.inr rfl⟩
    have h2 : (-1 : Int) = (len : Int) := h1
    omega

/-- C2: an accepted request with a buffer of at least `len` cells, with
`len > 256 - offset` and whose last byte lies on the disk of its first byte,
returns `len` and leaves in cell `i` of the destination the byte at linear address
`addr + i`, for every `i < len`. -/
theorem mdadm_read_across_blocks (st : State) (addr len : Nat) (b : List Nat)
    (hg : Mounted st) (ha : addr + len < 1048575) (hl : len ≤ 1024) (hlen : len ≤ b.length)
    (hm : len > 256 - (translated_addr addr).2.2)
    (hsame : (translated_addr (addr + len - 1)).1 = (translated_addr addr).1) :
    ∃ (r : ReadResult) (b2 : List Nat),
      mdadm_read st addr len (some b) = some r ∧ r.ret = (len : Int) ∧ r.buf = some b2 ∧
      b2.length = b.length ∧
      ∀ i, i < len → b2[i]? = some (byteAt st.dev.contents (addr + i)) := by
  simp only [translated_addr, JBOD_DISK_SIZE, JBOD_BLOCK_SIZE] at hm hsame
  exact mdadm_read_multi_bytes st addr len b hg ha hl (by omega) hsame hlen

/-- Witness of `mdadm_read_across_blocks`: the three-block read of 258 bytes at
address 255. -/
theorem mdadm_read_across_blocks_witness :
    ∃ (r : ReadResult) (b2 : List Nat),
      mdadm_read ⟨1, sampleDev⟩ 255 258 (some (List.replicate 258 0)) = some r ∧
      r.ret = ((258 : Nat) : Int) ∧ r.buf = some b2 ∧
      b2.length = (List.replicate 258 0).length ∧
      ∀ i, i < 258 → b2[i]? = some (byteAt sampleDev.contents (255 + i)) :=
  mdadm_read_across_blocks ⟨1, sampleDev⟩ 255 258 (List.replicate 258 0)
    (by decide) (by decide) (by decide) (by rw [List.length_replicate]) (by decide)
    (by decide)

/-- C3, evaluated at a failing input: on the sample device, mounted, the read of
513 bytes at address 65280 (block 255 of disk 0, offset 0) returns 513 but cell
512 of the destination holds 7, the first byte of block 0 of disk 1, while the
byte at linear address 65280 + 512 (block 1 of disk 1) is 10. -/
theorem mdadm_read_cross_disk_wrong_byte :
    ∃ (r : ReadResult) (b2 : List Nat),
      mdadm_read ⟨1, sampleDev⟩ 65280 513 (some (List.replicate 513 0)) = some r ∧
      r.ret = 513 ∧ r.buf = some b2 ∧ b2[512]? = some 7 ∧
      sampleDev.contents 1 0 0 = 7 ∧
      byteAt sampleDev.contents (65280 + 512) = 10 := by
  obtain ⟨r, b2, k, t, h, hr, hb, _, hk, ht1, ht2, hbytes⟩ :=
    mdadm_read_cross_bytes ⟨1, sampleDev⟩ 65280 513 (List.replicate 513 0)
      (by decide) (by decide) (by decide) (by decide) (by decide)
      (by rw [List.length_replicate])
  refine ⟨r, b2, h, hr, hb, ?_, by decide, by decide⟩
  have h512 := hbytes 512 (by decide)
  have hk1 : k = 1 := by omega
  subst hk1
  rw [h512]
  decide

/-- C4: an accepted request with `1 <= len <= 256 - offset` and a buffer of at
least `len` cells returns `len` and leaves in cell `i` of the destination byte
`offset + i` of block `blockID` of disk `diskID`, for every `i < len`, from any
device cursor. -/
theorem mdadm_read_within_block (st : State) (addr len : Nat) (b : List Nat)
    (hg : Mounted st) (ha : addr + len < 1048575) (hlen : len ≤ b.length)
    (hs : len ≤ 256 - (translated_addr addr).2.2) :
    ∃ (r : ReadResult) (b2 : List Nat),
      mdadm_read st addr len (some b) = some r ∧ r.ret = (len : Int) ∧ r.buf = some b2 ∧
      b2.length = b.length ∧
      ∀ i, i < len →
        b2[i]? = some (st.dev.contents (translated_addr addr).1 (translated_addr addr).2.1
          ((translated_addr addr).2.2 + i)) := by
  simp only [translated_addr, JBOD_DISK_SIZE, JBOD_BLOCK_SIZE] at hs ⊢
  refine ⟨_, _, mdadm_read_single st addr len b hg ha hs, rfl, rfl, memcpy_length _ _ _ _ _, ?_⟩
  intro i hi
  rw [memcpy_getElem?, if_pos ⟨Nat.zero_le i, by omega, by omega⟩,
    blockBytes_getD _ _ _ _ (by omega)]
  exact contents_congr _ rfl rfl (by omega)

/-- Witness of `mdadm_read_within_block`: the read of 16 bytes at address 0, from a
cursor parked elsewhere. -/
theorem mdadm_read_within_block_witness :
    ∃ (r : ReadResult) (b2 : List Nat),
      mdadm_read ⟨1, { sampleDev with disk := 9, block := 200 }⟩ 0 16
        (some (List.replicate 16 0)) = some r ∧
      r.ret = ((16 : Nat) : Int) ∧ r.buf = some b2 ∧
      b2.length = (List.replicate 16 0).length ∧
      ∀ i, i < 16 →
        b2[i]? = some (sampleDev.contents (translated_addr 0).1 (translated_addr 0).2.1
          ((translated_addr 0).2.2 + i)) :=
  mdadm_read_within_block ⟨1, { sampleDev with disk := 9, block := 200 }⟩ 0 16
    (List.replicate 16 0) (by decide) (by decide) (by rw [List.length_replicate]) (by decide)

/-- C7: whenever `mdadm_read` returns -1 it has left the whole state as it was:
the command trace (no command sent), the mount flag, the device cursor and
contents, and every cell of the destination buffer. -/
theorem mdadm_read_failure_frame (st : State) (addr len : Nat) (buf : Option (List Nat))
    (r : ReadResult) (h : mdadm_read st addr len buf = some r) (hr : r.ret = -1) :
    r.st.dev.trace = st.dev.trace ∧ r.st.global = st.global ∧
    r.st.dev.disk = st.dev.disk ∧ r.st.dev.block = st.dev.block ∧
    r.st.dev.contents = st.dev.contents ∧ r.st = st ∧ r.buf = buf := by
  by_cases hc : st.global ≠ 0 ∧ addr + len < 1048575 ∧ len ≤ 1024 ∧ (len = 0 ∨ buf ≠ none)
  · obtain ⟨r2, h2, hret⟩ := mdadm_read_accept_ret st addr len buf hc
    rw [h] at h2
    cases h2
    rw [hr] at hret
    omega
  · rw [mdadm_read_reject st addr len buf hc] at h
    cases h
    exact ⟨rfl, rfl, rfl, rfl, rfl, rfl, rfl⟩

/-- Witness of `mdadm_read_failure_frame`: a read before mount. -/
theorem mdadm_read_failure_frame_witness :
    mdadm_read (initState sampleDev) 0 16 (some (List.replicate 16 0)) =
      some ⟨-1, initState sampleDev, some (List.replicate 16 0)⟩ ∧
    (initState sampleDev).dev.trace = (initState sampleDev).dev.trace ∧
    (initState sampleDev).global = (initState sampleDev).global ∧
    (initState sampleDev).dev.disk = (initState sampleDev).dev.disk ∧
    (initState sampleDev).dev.block = (initState sampleDev).dev.block ∧
    (initState sampleDev).dev.contents = (initState sampleDev).dev.contents ∧
    initState sampleDev = initState sampleDev ∧
    some (List.replicate 16 0) = some (List.replicate 16 0) :=
  ⟨rfl, mdadm_read_failure_frame (initState sampleDev) 0 16 (some (List.replicate 16 0))
    ⟨-1, initState sampleDev, some (List.replicate 16 0)⟩ rfl rfl⟩

/-- C8, counterexample: on the mounted sample device, whose trace is empty and whose
cursor is at block 0, the zero-length read at address 0 with a non-null (empty)
destination returns 0 but sends three commands (SeekToDisk, SeekToBlock,
ReadBlock) and moves the cursor to block 1. -/
theorem mdadm_read_zero_nonnull_sends :
    ∃ r : ReadResult, mdadm_read ⟨1, sampleDev⟩ 0 0 (some []) = some r ∧ r.ret = 0 ∧
      sampleDev.trace = [] ∧ r.st.dev.trace = [134217728, 201326592, 268435456] ∧
      r.st.dev.trace ≠ sampleDev.trace ∧
      sampleDev.block = 0 ∧ r.st.dev.block = 1 ∧ r.st.dev.block ≠ sampleDev.block :=
  ⟨_, mdadm_read_single ⟨1, sampleDev⟩ 0 0 [] (by decide) (by decide) (by decide),
    rfl, rfl, by decide, by decide, rfl, rfl, by decide⟩

/-- C8, amended: on a mounted system and for `addr < 1,048,575`, a zero-length read
returns 0 for a null and for a non-null destination. With a null destination the
state is unchanged: no command is sent and the cursor does not move. With a
non-null destination the buffer is unchanged, and the call sends exactly
SeekToDisk(diskID), SeekToBlock(blockID) and one ReadBlock, which leaves the
cursor at block `blockID + 1` of disk `diskID`. -/
theorem mdadm_read_zero_length (st : State) (addr : Nat) (hg : Mounted st)
    (ha : addr < 1048575) :
    mdadm_read st addr 0 none = some ⟨0, st, none⟩ ∧
    ∀ b : List Nat, ∃ r : ReadResult,
      mdadm_read st addr 0 (some b) = some r ∧ r.ret = 0 ∧ r.buf = some b ∧
      r.st.global = st.global ∧ r.st.dev.contents = st.dev.contents ∧
      r.st.dev.trace = st.dev.trace ++
        [encode_op JBOD_SEEK_TO_DISK (translated_addr addr).1 0,
         encode_op JBOD_SEEK_TO_BLOCK 0 (translated_addr addr).2.1,
         encode_op JBOD_READ_BLOCK 0 0] ∧
      r.st.dev.disk = (translated_addr addr).1 ∧
      r.st.dev.block = (translated_addr addr).2.1 + 1 := by
  refine ⟨mdadm_read_zero_null st addr hg ha, fun b => ?_⟩
  refine ⟨_, mdadm_read_single st addr 0 b hg (by omega) (by omega), rfl, rfl, rfl, rfl, ?_,
    rfl, rfl⟩
  simp only [translated_addr, JBOD_DISK_SIZE, JBOD_BLOCK_SIZE, encode_read, List.append_assoc,
    List.cons_append, List.nil_append]

/-- Witness of `mdadm_read_zero_length` on the mounted sample device at address 0. -/
theorem mdadm_read_zero_length_witness :
    mdadm_read ⟨1, sampleDev⟩ 0 0 none = some ⟨0, ⟨1, sampleDev⟩, none⟩ ∧
    ∀ b : List Nat, ∃ r : ReadResult,
      mdadm_read ⟨1, sampleDev⟩ 0 0 (some b) = some r ∧ r.ret = 0 ∧ r.buf = some b ∧
      r.st.global = 1 ∧ r.st.dev.contents = sampleDev.contents ∧
      r.st.dev.trace = sampleDev.trace ++
        [encode_op JBOD_SEEK_TO_DISK (translated_addr 0).1 0,
         encode_op JBOD_SEEK_TO_BLOCK 0 (translated_addr 0).2.1,
         encode_op JBOD_READ_BLOCK 0 0] ∧
      r.st.dev.disk = (translated_addr 0).1 ∧
      r.st.dev.block = (translated_addr 0).2.1 + 1 :=
  mdadm_read_zero_length ⟨1, sampleDev⟩ 0 (by decide) (by decide)

/-- C9, evaluated at failing inputs: on a mounted system the one-byte reads at
addresses 1,048,574 and 1,048,575, both inside the 1 MiB space, return -1. -/
theorem mdadm_read_top_bytes_rejected :
    mdadm_read ⟨1, sampleDev⟩ 1048574 1 (some [0]) = some ⟨-1, ⟨1, sampleDev⟩, some [0]⟩ ∧
    mdadm_read ⟨1, sampleDev⟩ 1048575 1 (some [0]) = some ⟨-1, ⟨1, sampleDev⟩, some [0]⟩ :=
  ⟨mdadm_read_reject _ _ _ _ (fun h => absurd h.2.1 (by decide)),
   mdadm_read_reject _ _ _ _ (fun h => absurd h.2.1 (by decide))⟩

/-! ## Command encoder -/

/-- With fields that fit their bit ranges, the bitwise OR of `encode_op` is a sum. -/
theorem encode_op_eq_sum (c d b : Nat) (hc : c < 64) (hd : d < 16) (hb : b < 4194304) :
    encode_op c d b = c * 67108864 + d * 4194304 + b := by
  have e1 : c <<< 26 = 2 ^ 26 * c := by rw [Nat.shiftLeft_eq, Nat.mul_comm]
  have e2 : d <<< 22 = d * 4194304 := by rw [Nat.shiftLeft_eq]
  have h1 : d * 4194304 < 2 ^ 26 := by omega
  have e3 : 2 ^ 26 * c ||| d * 4194304 = 2 ^ 22 * (16 * c + d) := by
    rw [← Nat.mul_add_lt_is_or h1 c]
    omega
  have h2 : b < 2 ^ 22 := by omega
  have e4 : 2 ^ 22 * (16 * c + d) ||| b = 2 ^ 22 * (16 * c + d) + b :=
    (Nat.mul_add_lt_is_or h2 (16 * c + d)).symm
  unfold encode_op
  rw [e1, e2, e3, e4]
  omega

theorem field_opcode (w : Nat) : w >>> 26 = w / 67108864 := by
  rw [Nat.shiftRight_eq_div_pow]

theorem field_disk (w : Nat) : (w >>> 22) &&& 15 = w / 4194304 % 16 := by
  rw [Nat.shiftRight_eq_div_pow]
  exact Nat.and_pow_two_sub_one_eq_mod _ 4

theorem field_block (w : Nat) : w &&& 4194303 = w % 4194304 :=
  Nat.and_pow_two_sub_one_eq_mod w 22

/-- C11: for every opcode in 0..63, disk in 0..15 and block operand in 0..255, the
word built by `encode_op` has the opcode in bits [31:26], the disk in bits [25:22]
and the block operand in bits [21:0]; hence `encode_op` is injective on this
domain. -/
theorem encode_op_fields (opcode diskID block : Nat)
    (ho : opcode ≤ 63) (hd : diskID ≤ 15) (hb : block ≤ 255) :
    encode_op opcode diskID block < 4294967296 ∧
    encode_op opcode diskID block >>> 26 = opcode ∧
    (encode_op opcode diskID block >>> 22) &&& 15 = diskID ∧
    encode_op opcode diskID block &&& 4194303 = block ∧
    (∀ opcode2 diskID2 block2 : Nat, opcode2 ≤ 63 → diskID2 ≤ 15 → block2 ≤ 255 →
      encode_op opcode2 diskID2 block2 = encode_op opcode diskID block →
      opcode2 = opcode ∧ diskID2 = diskID ∧ block2 = block) := by
  have e := encode_op_eq_sum opcode diskID block (by omega) (by omega) (by omega)
  refine ⟨by omega, ?_, ?_, ?_, ?_⟩
  · rw [field_opcode, e]; omega
  · rw [field_disk, e]; omega
  · rw [field_block, e]; omega
  · intro o2 d2 b2 ho2 hd2 hb2 heq
    rw [e, encode_op_eq_sum o2 d2 b2 (by omega) (by omega) (by omega)] at heq
    omega

/-- Witness of `encode_op_fields`: the SeekToBlock word for block 255 with disk 15. -/
theorem encode_op_fields_witness :
    encode_op 3 15 255 < 4294967296 ∧
    encode_op 3 15 255 >>> 26 = 3 ∧
    (encode_op 3 15 255 >>> 22) &&& 15 = 15 ∧
    encode_op 3 15 255 &&& 4194303 = 255 ∧
    (∀ opcode2 diskID2 block2 : Nat, opcode2 ≤ 63 → diskID2 ≤ 15 → block2 ≤ 255 →
      encode_op opcode2 diskID2 block2 = encode_op 3 15 255 →
      opcode2 = 3 ∧ diskID2 = 15 ∧ block2 = 255) :=
  encode_op_fields 3 15 255 (by decide) (by decide) (by decide)

/-! ## Seek controller -/

/-- C17: for every disk in 0..15 and block in 0..255, `seek` does not abort and
sends exactly two commands, in this order: the SeekToDisk word, with the disk in
its disk field and 0 in its block field, then the SeekToBlock word, with 0 in its
disk field and the block in its block field; afterwards the device cursor is at
that disk and block, whatever it was before, and the contents are untouched. -/
theorem seek_spec (dev : Jbod) (diskID blockID : Nat) (hd : diskID ≤ 15) (hb : blockID ≤ 255) :
    ∃ dev2 : Jbod, seek dev diskID blockID = some dev2 ∧
      dev2.trace = dev.trace ++
        [encode_op JBOD_SEEK_TO_DISK diskID 0, encode_op JBOD_SEEK_TO_BLOCK 0 blockID] ∧
      encode_op JBOD_SEEK_TO_DISK diskID 0 >>> 26 = JBOD_SEEK_TO_DISK ∧
      (encode_op JBOD_SEEK_TO_DISK diskID 0 >>> 22) &&& 15 = diskID ∧
      encode_op JBOD_SEEK_TO_DISK diskID 0 &&& 4194303 = 0 ∧
      encode_op JBOD_SEEK_TO_BLOCK 0 blockID >>> 26 = JBOD_SEEK_TO_BLOCK ∧
      (encode_op JBOD_SEEK_TO_BLOCK 0 blockID >>> 22) &&& 15 = 0 ∧
      encode_op JBOD_SEEK_TO_BLOCK 0 blockID &&& 4194303 = blockID ∧
      dev2.disk = diskID ∧ dev2.block = blockID ∧ dev2.contents = dev.contents := by
  have e1 := encode_op_eq_sum JBOD_SEEK_TO_DISK diskID 0 (by decide) (by omega) (by omega)
  have e2 := encode_op_eq_sum JBOD_SEEK_TO_BLOCK 0 blockID (by decide) (by omega) (by omega)
  simp only [JBOD_SEEK_TO_DISK, JBOD_SEEK_TO_BLOCK] at e1 e2 ⊢
  refine ⟨_, seek_eq dev diskID blockID hd hb, rfl, ?_, ?_, ?_, ?_, ?_, ?_, rfl, rfl, rfl⟩
  · rw [field_opcode, e1]; omega
  · rw [field_disk, e1]; omega
  · rw [field_block, e1]; omega
  · rw [field_opcode, e2]; omega
  · rw [field_disk, e2]; omega
  · rw [field_block, e2]; omega

/-- Witness of `seek_spec`: a seek to block 255 of disk 14 from a cursor elsewhere. -/
theorem seek_spec_witness :
    ∃ dev2 : Jbod, seek { sampleDev with disk := 3, block := 7 } 14 255 = some dev2 ∧
      dev2.trace = sampleDev.trace ++
        [encode_op JBOD_SEEK_TO_DISK 14 0, encode_op JBOD_SEEK_TO_BLOCK 0 255] ∧
      encode_op JBOD_SEEK_TO_DISK 14 0 >>> 26 = JBOD_SEEK_TO_DISK ∧
      (encode_op JBOD_SEEK_TO_DISK 14 0 >>> 22) &&& 15 = 14 ∧
      encode_op JBOD_SEEK_TO_DISK 14 0 &&& 4194303 = 0 ∧
      encode_op JBOD_SEEK_TO_BLOCK 0 255 >>> 26 = JBOD_SEEK_TO_BLOCK ∧
      (encode_op JBOD_SEEK_TO_BLOCK 0 255 >>> 22) &&& 15 = 0 ∧
      encode_op JBOD_SEEK_TO_BLOCK 0 255 &&& 4194303 = 255 ∧
      dev2.disk = 14 ∧ dev2.block = 255 ∧ dev2.contents = sampleDev.contents :=
  seek_spec { sampleDev with disk := 3, block := 7 } 14 255 (by decide) (by decide)

/-! ## Read assembler: the whole effect of an accepted call -/

theorem deliveredByte_first (c : Nat → Nat → Nat → Nat) (addr len i : Nat)
    (h : len ≤ 256 - addr % 65536 % 256 ∨ i < 256 - addr % 65536 % 256) :
    deliveredByte c addr len i =
      c (addr / 65536) (addr % 65536 / 256) (addr % 65536 % 256 + i) := by
  rw [deliveredByte, if_pos h]

theorem deliveredByte_multi (c : Nat → Nat → Nat → Nat) (addr len i : Nat)
    (h1 : ¬ len ≤ 256 - addr % 65536 % 256) (h2 : ¬ i < 256 - addr % 65536 % 256)
    (h3 : addr % 65536 / 256 ≠ 255) :
    deliveredByte c addr len i =
      c (addr / 65536) (addr % 65536 / 256 + 1 + (i - (256 - addr % 65536 % 256)) / 256)
        ((i - (256 - addr % 65536 % 256)) % 256) := by
  rw [deliveredByte, if_neg (fun h => h.elim h1 h2), if_neg h3]

theorem deliveredByte_cross (c : Nat → Nat → Nat → Nat) (addr len i : Nat)
    (h1 : ¬ len ≤ 256 - addr % 65536 % 256) (h2 : ¬ i < 256 - addr % 65536 % 256)
    (h3 : addr % 65536 / 256 = 255) :
    deliveredByte c addr len i =
      if i < 256 - addr % 65536 % 256 +
          256 * ((len - (256 - addr % 65536 % 256) - 1) / 256) then
        c (addr / 65536 + 1) ((i - (256 - addr % 65536 % 256)) / 256)
          ((i - (256 - addr % 65536 % 256)) % 256)
      else
        c (addr / 65536 + 1) 0
          (i - (256 - addr % 65536 % 256 +
            256 * ((len - (256 - addr % 65536 % 256) - 1) / 256))) := by
  rw [deliveredByte, if_neg (fun h => h.elim h1 h2), if_pos h3]

/-- Number of loop iterations, from the bytes left after the first block. -/
theorem loop_count (len n0 k t : Nat) (h1 : 256 * k + t = len - n0) (h2 : 0 < t)
    (h3 : t ≤ 256) : k = (len - n0 - 1) / 256 := by
  omega

/-- Effect of an accepted call on the single-block path. -/
theorem mdadm_read_effect_single (st : State) (addr len : Nat) (b : List Nat)
    (hg : st.global ≠ 0) (ha : addr + len < 1048575)
    (hs : len ≤ 256 - addr % 65536 % 256) :
    ∃ (r : ReadResult) (b2 : List Nat),
      mdadm_read st addr len (some b) = some r ∧ r.ret = (len : Int) ∧
      r.st.global = st.global ∧ r.st.dev.contents = st.dev.contents ∧
      r.st.dev.trace = st.dev.trace ++ readCommands addr len ∧
      r.buf = some b2 ∧ b2.length = b.length ∧
      ∀ i, b2[i]? =
        if i < len ∧ i < b.length then some (deliveredByte st.dev.contents addr len i)
        else b[i]? := by
  refine ⟨_, _, mdadm_read_single st addr len b hg ha hs, rfl, rfl, rfl, ?_, rfl,
    memcpy_length _ _ _ _ _, ?_⟩
  · simp only [readCommands, if_pos hs, List.append_assoc, List.cons_append, List.nil_append]
  · intro i
    rw [memcpy_getElem?]
    by_cases c1 : i < len ∧ i < b.length
    · rw [if_pos ⟨Nat.zero_le i, by omega, c1.2⟩, if_pos c1,
        blockBytes_getD _ _ _ _ (by omega), deliveredByte_first _ _ _ _ (Or.inl hs)]
      exact contents_congr _ rfl rfl (by omega)
    · rw [if_neg (fun h => c1 ⟨by omega, h.2.2⟩), if_neg c1]

/-- Effect of an accepted call on the multi-block path, first block not block 255. -/
theorem mdadm_read_effect_multi (st : State) (addr len : Nat) (b : List Nat)
    (hg : st.global ≠ 0) (ha : addr + len < 1048575) (hl : len ≤ 1024)
    (hm : ¬ len ≤ 256 - addr % 65536 % 256) (hblk : addr % 65536 / 256 ≠ 255) :
    ∃ (r : ReadResult) (b2 : List Nat),
      mdadm_read st addr len (some b) = some r ∧ r.ret = (len : Int) ∧
      r.st.global = st.global ∧ r.st.dev.contents = st.dev.contents ∧
      r.st.dev.trace = st.dev.trace ++ readCommands addr len ∧
      r.buf = some b2 ∧ b2.length = b.length ∧
      ∀ i, b2[i]? =
        if i < len ∧ i < b.length then some (deliveredByte st.dev.contents addr len i)
        else b[i]? := by
  rw [mdadm_read_multi st addr len b hg ha hl hm hblk]
  obtain ⟨k, b2, h1, h2, h3, h4, h5, h6, h7, h8, h9, h10, h11⟩ :=
    mdadm_read_loop_entry (devAfterFirst st.dev addr) st.dev.contents addr len b hl hm
  have hk := loop_count _ _ _ _ h1 h3 h2
  generalize mdadm_read_loop 268435456
    (loopEntry (devAfterFirst st.dev addr) st.dev.contents addr len b) = v at *
  simp only [devAfterFirst] at h5 h6 h7 h8 h11
  refine ⟨_, memcpy b2 v.newlen (blockBytes v.dev.contents v.dev.disk v.dev.block) 0 v.templen,
    rfl, rfl, rfl, h5, ?_, ?_, ?_, ?_⟩
  · simp only [lastBlock, h8, readCommands, if_neg hm, if_neg hblk, ← hk, List.append_assoc,
      List.cons_append, List.nil_append]
  · simp only [lastBlock, h9, Option.map_some']
  · rw [memcpy_length, h10]
  · intro i
    clear ha hk h8
    rw [memcpy_getElem?, h11 i, h5, h6, h7, h4, h10]
    by_cases c2 : i < 256 - addr % 65536 % 256
    · rw [deliveredByte_first _ _ _ _ (Or.inr c2)]
      have n1 : ¬ (256 - addr % 65536 % 256 + 256 * k ≤ i ∧
          i < 256 - addr % 65536 % 256 + 256 * k + v.templen ∧ i < b.length) :=
        fun h => absurd c2 (by omega)
      rw [if_neg n1]
      by_cases c3 : i < b.length
      · rw [if_pos ⟨by omega, c3⟩, if_pos c2, if_pos ⟨by omega, c3⟩]
      · rw [if_neg (fun h => c3 h.2), if_neg (fun h => c3 h.2)]
    · rw [deliveredByte_multi _ _ _ _ hm c2 hblk]
      clear hblk
      generalize 256 - addr % 65536 % 256 = n0 at *
      by_cases c3 : i < len ∧ i < b.length
      · rw [if_pos c3]
        by_cases c1 : n0 + 256 * k ≤ i
        · rw [if_pos ⟨c1, by omega, c3.2⟩, blockBytes_getD _ _ _ _ (by omega)]
          have e1 : (i - n0) / 256 = k := by omega
          rw [e1]
          exact contents_congr _ rfl rfl (by omega)
        · rw [if_neg (fun h => c1 h.1), if_pos ⟨by omega, c3.2⟩, if_neg c2]
      · rw [if_neg c3, if_neg (fun h => c3 ⟨by omega, h.2.2⟩),
          if_neg (fun h => c3 ⟨by omega, h.2⟩)]

/-- Effect of an accepted call on the multi-block path, first block is block 255. -/
theorem mdadm_read_effect_cross (st : State) (addr len : Nat) (b : List Nat)
    (hg : st.global ≠ 0) (ha : addr + len < 1048575) (hl : len ≤ 1024)
    (hm : ¬ len ≤ 256 - addr % 65536 % 256) (hblk : addr % 65536 / 256 = 255) :
    ∃ (r : ReadResult) (b2 : List Nat),
      mdadm_read st addr len (some b) = some r ∧ r.ret = (len : Int) ∧
      r.st.global = st.global ∧ r.st.dev.contents = st.dev.contents ∧
      r.st.dev.trace = st.dev.trace ++ readCommands addr len ∧
      r.buf = some b2 ∧ b2.length = b.length ∧
      ∀ i, b2[i]? =
        if i < len ∧ i < b.length then some (deliveredByte st.dev.contents addr len i)
        else b[i]? := by
  rw [mdadm_read_cross st addr len b hg ha hl hm hblk]
  obtain ⟨k, b2, h1, h2, h3, h4, h5, h6, h7, h8, h9, h10, h11⟩ :=
    mdadm_read_loop_entry (reseek (devAfterFirst st.dev addr) (addr / 65536 + 1))
      st.dev.contents addr len b hl hm
  have hk := loop_count _ _ _ _ h1 h3 h2
  generalize mdadm_read_loop 268435456
    (loopEntry (reseek (devAfterFirst st.dev addr) (addr / 65536 + 1))
      st.dev.contents addr len b) = v at *
  simp only [devAfterFirst, reseek] at h5 h6 h7 h8 h11
  refine ⟨_, memcpy b2 v.newlen (blockBytes st.dev.contents (addr / 65536 + 1) 0) 0 v.templen,
    rfl, rfl, rfl, h5, ?_, ?_, ?_, ?_⟩
  · simp only [lastBlock, reseek, h8, readCommands, if_neg hm, if_pos hblk, ← hk,
      List.append_assoc, List.cons_append, List.nil_append]
  · simp only [lastBlock, reseek, h9, h5, Option.map_some']
  · rw [memcpy_length, h10]
  · intro i
    clear ha h8
    rw [memcpy_getElem?, h11 i, h4, h10]
    by_cases c2 : i < 256 - addr % 65536 % 256
    · rw [deliveredByte_first _ _ _ _ (Or.inr c2)]
      have n1 : ¬ (256 - addr % 65536 % 256 + 256 * k ≤ i ∧
          i < 256 - addr % 65536 % 256 + 256 * k + v.templen ∧ i < b.length) :=
        fun h => absurd c2 (by omega)
      rw [if_neg n1]
      by_cases c3 : i < b.length
      · rw [if_pos ⟨by omega, c3⟩, if_pos c2, if_pos ⟨by omega, c3⟩]
      · rw [if_neg (fun h => c3 h.2), if_neg (fun h => c3 h.2)]
    · rw [deliveredByte_cross _ _ _ _ hm c2 hblk, ← hk]
      clear hblk hk
      generalize 256 - addr % 65536 % 256 = n0 at *
      by_cases c3 : i < len ∧ i < b.length
      · rw [if_pos c3]
        by_cases c1 : n0 + 256 * k ≤ i
        · rw [if_pos ⟨c1, by omega, c3.2⟩, if_neg (by omega),
            blockBytes_getD _ _ _ _ (by omega)]
          exact contents_congr _ rfl rfl (by omega)
        · rw [if_neg (fun h => c1 h.1), if_pos ⟨by omega, c3.2⟩, if_neg c2,
            if_pos (by omega)]
          exact contents_congr _ rfl (by omega) rfl
      · rw [if_neg c3, if_neg (fun h => c3 ⟨by omega, h.2.2⟩),
          if_neg (fun h => c3 ⟨by omega, h.2⟩)]

/-- Effect of an accepted call with a buffer: it does not abort, returns `len`,
keeps the mount flag and the contents, appends `readCommands addr len` to the
trace, and rewrites exactly the cells `i < len` of the buffer, cell `i` with
`deliveredByte contents addr len i`. -/
theorem mdadm_read_effect (st : State) (addr len : Nat) (b : List Nat)
    (hg : st.global ≠ 0) (ha : addr + len < 1048575) (hl : len ≤ 1024) :
    ∃ (r : ReadResult) (b2 : List Nat),
      mdadm_read st addr len (some b) = some r ∧ r.ret = (len : Int) ∧
      r.st.global = st.global ∧ r.st.dev.contents = st.dev.contents ∧
      r.st.dev.trace = st.dev.trace ++ readCommands addr len ∧
      r.buf = some b2 ∧ b2.length = b.length ∧
      ∀ i, b2[i]? =
        if i < len ∧ i < b.length then some (deliveredByte st.dev.contents addr len i)
        else b[i]? := by
  by_cases hs : len ≤ 256 - addr % 65536 % 256
  · exact mdadm_read_effect_single st addr len b hg ha hs
  · by_cases hblk : addr % 65536 / 256 = 255
    · exact mdadm_read_effect_cross st addr len b hg ha hl hs hblk
    · exact mdadm_read_effect_multi st addr len b hg ha hl hs hblk

/-! ## Counting ReadBlock commands -/

theorem isReadBlock_read : isReadBlock 268435456 = true := by decide

theorem isReadBlock_seek_disk (d : Nat) (hd : d ≤ 15) :
    isReadBlock (encode_op JBOD_SEEK_TO_DISK d 0) = false := by
  have h := encode_seek_disk_opcode d (by omega)
  simp [isReadBlock, h, JBOD_READ_BLOCK]

theorem isReadBlock_seek_block (b : Nat) (hb : b ≤ 255) :
    isReadBlock (encode_op JBOD_SEEK_TO_BLOCK 0 b) = false := by
  have h := encode_seek_block_opcode b (by omega)
  simp [isReadBlock, h, JBOD_READ_BLOCK]

/-- Number of ReadBlock words among the commands of an accepted call: one on the
single-block path, two more than the number of loop iterations otherwise. -/
theorem readCommands_reads (addr len : Nat) (ha : addr + len < 1048575) :
    (readCommands addr len).countP isReadBlock =
      if len ≤ 256 - addr % 65536 % 256 then 1
      else (len - (256 - addr % 65536 % 256) - 1) / 256 + 2 := by
  have d1 := isReadBlock_seek_disk (addr / 65536) (by omega)
  have b1 := isReadBlock_seek_block (addr % 65536 / 256) (by omega)
  have b0 := isReadBlock_seek_block 0 (by omega)
  have r1 := isReadBlock_read
  by_cases hs : len ≤ 256 - addr % 65536 % 256
  · simp [readCommands, hs, List.countP_cons, d1, b1, r1]
  · by_cases hblk : addr % 65536 / 256 = 255
    · have d2 := isReadBlock_seek_disk (addr / 65536 + 1) (by omega)
      rw [readCommands, if_neg hs, if_pos hblk, if_neg hs]
      simp only [List.countP_append, List.countP_cons, List.countP_nil,
        List.countP_replicate, d1, b1, r1, d2, b0, if_true, Bool.false_eq_true, if_false]
      omega
    · rw [readCommands, if_neg hs, if_neg hblk, if_neg hs]
      simp only [List.countP_append, List.countP_cons, List.countP_nil,
        List.countP_replicate, d1, b1, r1, if_true, Bool.false_eq_true, if_false]
      omega

/-- Blocks overlapped by a range that fits in the first block. -/
theorem blocks_single (addr len : Nat) (h1 : 1 ≤ len) (hs : len ≤ 256 - addr % 65536 % 256) :
    (addr + len - 1) / 256 - addr / 256 + 1 = 1 := by
  omega

/-- Blocks overlapped by a range that runs past the first block. -/
theorem blocks_multi (addr len : Nat) (hm : ¬ len ≤ 256 - addr % 65536 % 256) :
    (addr + len - 1) / 256 - addr / 256 + 1 =
      (len - (256 - addr % 65536 % 256) - 1) / 256 + 2 := by
  omega

/-! ## Read assembler: commands sent -/

/-- C12, evaluated at a failing input: on the mounted sample device the read of 258
bytes at address 65279 (disk 0, block 254, offset 255) consumes block 255 of disk
0 and continues on disk 1, yet the commands sent are one SeekToDisk(0), one
SeekToBlock(254) and three ReadBlocks: no seek to disk 1 is sent between the
ReadBlock of block 255 and the next one, and the cursor ends past the last block
of disk 0. -/
theorem mdadm_read_no_reseek :
    ∃ r : ReadResult,
      mdadm_read ⟨1, sampleDev⟩ 65279 258 (some (List.replicate 258 0)) = some r ∧
      r.ret = 258 ∧
      (translated_addr 65279).1 = 0 ∧ (translated_addr 65279).2.1 = 254 ∧
      (translated_addr (65279 + 258 - 1)).1 = 1 ∧
      r.st.dev.trace =
        [encode_op JBOD_SEEK_TO_DISK 0 0, encode_op JBOD_SEEK_TO_BLOCK 0 254,
         encode_op JBOD_READ_BLOCK 0 0, encode_op JBOD_READ_BLOCK 0 0,
         encode_op JBOD_READ_BLOCK 0 0] ∧
      encode_op JBOD_SEEK_TO_DISK 1 0 ∉ r.st.dev.trace ∧
      r.st.dev.disk = 0 ∧ r.st.dev.block = 257 := by
  rw [mdadm_read_multi ⟨1, sampleDev⟩ 65279 258 (List.replicate 258 0)
    (by decide) (by decide) (by decide) (by decide) (by decide)]
  obtain ⟨k, b2, h1, h2, h3, h4, h5, h6, h7, h8, h9, h10, h11⟩ :=
    mdadm_read_loop_entry (devAfterFirst sampleDev 65279) sampleDev.contents 65279 258
      (List.replicate 258 0) (by decide) (by decide)
  have hk : k = 1 := by omega
  subst hk
  generalize mdadm_read_loop 268435456
    (loopEntry (devAfterFirst sampleDev 65279) sampleDev.contents 65279 258
      (List.replicate 258 0)) = v at *
  refine ⟨_, rfl, rfl, by decide, by decide, by decide, ?_, ?_, ?_, ?_⟩
  · show v.dev.trace ++ [268435456] = _
    rw [h8]
    decide
  · show _ ∉ v.dev.trace ++ [268435456]
    rw [h8]
    decide
  · show v.dev.disk = 0
    rw [h6]
    decide
  · show v.dev.block + 1 = 257
    rw [h7]
    decide

/-- C19: an accepted request with `len >= 1` sends as many ReadBlock commands as the
range `[addr, addr + len)` overlaps 256-byte blocks, that is
`(addr + len - 1) / 256 - addr / 256 + 1`, at most 5. On the multi-block path the
first subtraction `templen -= newlen` does not wrap, and the loop, from whatever
device state it is entered, makes `k <= 3` iterations (one ReadBlock each) and
leaves `templen = len - (256 - offset) - 256 * k` between 1 and 256: the counter
never wraps. -/
theorem mdadm_read_block_count (st : State) (addr len : Nat) (b : List Nat)
    (hg : Mounted st) (ha : addr + len < 1048575) (hl : len ≤ 1024) (h1 : 1 ≤ len) :
    (∃ (r : ReadResult) (ws : List Nat),
      mdadm_read st addr len (some b) = some r ∧
      r.st.dev.trace = st.dev.trace ++ ws ∧
      ws.countP isReadBlock = (addr + len - 1) / 256 - addr / 256 + 1 ∧
      ws.countP isReadBlock ≤ 5) ∧
    (¬ len ≤ 256 - (translated_addr addr).2.2 →
      sub32 len (256 - (translated_addr addr).2.2) + (256 - (translated_addr addr).2.2) = len ∧
      ∀ dev2 : Jbod, ∃ k : Nat, k ≤ 3 ∧
        (mdadm_read_loop (encode_op JBOD_READ_BLOCK 0 0)
          ⟨dev2, blockBytes st.dev.contents (translated_addr addr).1 (translated_addr addr).2.1,
           some (memcpy b 0
             (blockBytes st.dev.contents (translated_addr addr).1 (translated_addr addr).2.1)
             (translated_addr addr).2.2 (256 - (translated_addr addr).2.2)),
           sub32 len (256 - (translated_addr addr).2.2),
           256 - (translated_addr addr).2.2⟩).dev.trace =
          dev2.trace ++ List.replicate k (encode_op JBOD_READ_BLOCK 0 0) ∧
        256 * k + (mdadm_read_loop (encode_op JBOD_READ_BLOCK 0 0)
          ⟨dev2, blockBytes st.dev.contents (translated_addr addr).1 (translated_addr addr).2.1,
           some (memcpy b 0
             (blockBytes st.dev.contents (translated_addr addr).1 (translated_addr addr).2.1)
             (translated_addr addr).2.2 (256 - (translated_addr addr).2.2)),
           sub32 len (256 - (translated_addr addr).2.2),
           256 - (translated_addr addr).2.2⟩).templen =
          len - (256 - (translated_addr addr).2.2) ∧
        1 ≤ (mdadm_read_loop (encode_op JBOD_READ_BLOCK 0 0)
          ⟨dev2, blockBytes st.dev.contents (translated_addr addr).1 (translated_addr addr).2.1,
           some (memcpy b 0
             (blockBytes st.dev.contents (translated_addr addr).1 (translated_addr addr).2.1)
             (translated_addr addr).2.2 (256 - (translated_addr addr).2.2)),
           sub32 len (256 - (translated_addr addr).2.2),
           256 - (translated_addr addr).2.2⟩).templen ∧
        (mdadm_read_loop (encode_op JBOD_READ_BLOCK 0 0)
          ⟨dev2, blockBytes st.dev.contents (translated_addr addr).1 (translated_addr addr).2.1,
           some (memcpy b 0
             (blockBytes st.dev.contents (translated_addr addr).1 (translated_addr addr).2.1)
             (translated_addr addr).2.2 (256 - (translated_addr addr).2.2)),
           sub32 len (256 - (translated_addr addr).2.2),
           256 - (translated_addr addr).2.2⟩).templen ≤ 256) := by
  constructor
  · obtain ⟨r, b2, hr, _, _, _, htr, _⟩ := mdadm_read_effect st addr len b hg ha hl
    have hc := readCommands_reads addr len ha
    refine ⟨r, readCommands addr len, hr, htr, ?_, ?_⟩
    · rw [hc]
      by_cases hs : len ≤ 256 - addr % 65536 % 256
      · rw [if_pos hs, blocks_single addr len h1 hs]
      · rw [if_neg hs, blocks_multi addr len hs]
    · rw [hc]
      by_cases hs : len ≤ 256 - addr % 65536 % 256
      · rw [if_pos hs]; omega
      · rw [if_neg hs]; omega
  · simp only [translated_addr, JBOD_DISK_SIZE, JBOD_BLOCK_SIZE, encode_read]
    intro hm
    have hsub : sub32 len (256 - addr % 65536 % 256) = len - (256 - addr % 65536 % 256) := by
      simp only [sub32]; omega
    rw [hsub]
    refine ⟨by omega, fun dev2 => ?_⟩
    obtain ⟨k, b2, h1, h2, h3, h4, h5, h6, h7, h8, h9, h10, h11⟩ :=
      mdadm_read_loop_entry dev2 st.dev.contents addr len b hl hm
    exact ⟨k, by omega, h8, h1, h3, h2⟩

/-- Witness of `mdadm_read_block_count`: 1024 bytes at address 100 overlap five
blocks. -/
theorem mdadm_read_block_count_witness :
    ∃ (r : ReadResult) (ws : List Nat),
      mdadm_read ⟨1, sampleDev⟩ 100 1024 (some (List.replicate 1024 0)) = some r ∧
      r.st.dev.trace = sampleDev.trace ++ ws ∧
      ws.countP isReadBlock = (100 + 1024 - 1) / 256 - 100 / 256 + 1 ∧
      ws.countP isReadBlock ≤ 5 :=
  (mdadm_read_block_count ⟨1, sampleDev⟩ 100 1024 (List.replicate 1024 0)
    (by decide) (by decide) (by decide) (by decide)).1

/-- C13: no call of `mdadm_read` aborts, whatever the mount state and the arguments,
that is, no assertion of `seek` fails (`seek` aborts exactly when an argument is
out of range). Whenever `seek` is reached, the request having passed validation
with a buffer, its arguments satisfy `diskID <= 15` and `blockID <= 255`, and
when the seek to `(diskID + 1, 0)` fires (first block is block 255 on the
multi-block path) `diskID + 1 <= 15`. -/
theorem mdadm_read_seek_in_range (st : State) (addr len : Nat) (buf : Option (List Nat)) :
    (mdadm_read st addr len buf).isSome = true ∧
    (∀ (dev : Jbod) (d b : Nat),
      seek dev d b = none ↔ ¬ ((0 ≤ d ∧ d ≤ 15) ∧ (0 ≤ b ∧ b ≤ 255))) ∧
    (Mounted st ∧ addr + len < 1048575 ∧ len ≤ 1024 ∧ buf ≠ none →
      (0 ≤ (translated_addr addr).1 ∧ (translated_addr addr).1 ≤ 15) ∧
      (0 ≤ (translated_addr addr).2.1 ∧ (translated_addr addr).2.1 ≤ 255) ∧
      ((translated_addr addr).2.1 = 255 ∧ ¬ len ≤ 256 - (translated_addr addr).2.2 →
        0 ≤ (translated_addr addr).1 + 1 ∧ (translated_addr addr).1 + 1 ≤ 15)) := by
  refine ⟨?_, ?_, ?_⟩
  · by_cases h : st.global ≠ 0 ∧ addr + len < 1048575 ∧ len ≤ 1024 ∧ (len = 0 ∨ buf ≠ none)
    · obtain ⟨r, hr, _⟩ := mdadm_read_accept_ret st addr len buf h
      rw [hr]; rfl
    · rw [mdadm_read_reject st addr len buf h]; rfl
  · intro dev d b
    unfold seek
    by_cases h1 : 0 ≤ d ∧ d ≤ 15
    · by_cases h2 : 0 ≤ b ∧ b ≤ 255
      · rw [if_pos h1, if_pos h2]
        simp [h1, h2]
      · rw [if_pos h1, if_neg h2]
        exact ⟨fun _ h => h2 h.2, fun _ => rfl⟩
    · rw [if_neg h1]
      exact ⟨fun _ h => h1 h.1, fun _ => rfl⟩
  · simp only [translated_addr, JBOD_DISK_SIZE, JBOD_BLOCK_SIZE]
    rintro ⟨_, ha, hl, _⟩
    refine ⟨⟨by omega, by omega⟩, ⟨by omega, by omega⟩, fun h => ⟨by omega, by omega⟩⟩

/-- Witness of `mdadm_read_seek_in_range`: the disk-crossing read at 983032. -/
theorem mdadm_read_seek_in_range_witness :
    (Mounted ⟨1, sampleDev⟩ ∧ 983032 + 16 < 1048575 ∧ 16 ≤ 1024 ∧
      some (List.replicate 16 0) ≠ none) ∧
    ((translated_addr 983032).2.1 = 255 ∧ ¬ 16 ≤ 256 - (translated_addr 983032).2.2) ∧
    (0 ≤ (translated_addr 983032).1 + 1 ∧ (translated_addr 983032).1 + 1 ≤ 15) :=
  have h : Mounted ⟨1, sampleDev⟩ ∧ 983032 + 16 < 1048575 ∧ 16 ≤ 1024 ∧
      some (List.replicate 16 0) ≠ none := ⟨by decide, by decide, by decide, by simp⟩
  have h2 : (translated_addr 983032).2.1 = 255 ∧ ¬ 16 ≤ 256 - (translated_addr 983032).2.2 :=
    ⟨by decide, by decide⟩
  ⟨h, h2,
    ((mdadm_read_seek_in_range ⟨1, sampleDev⟩ 983032 16 (some (List.replicate 16 0))).2.2
      h).2.2 h2⟩

/-! ## Sequences of calls: the command trace -/

theorem traceRun_append (a b : List Nat) :
    ∀ m : Bool, traceRun m (a ++ b) = (traceRun m a).bind (fun m2 => traceRun m2 b) := by
  induction a with
  | nil => intro m; rfl
  | cons w ws ih =>
    intro m
    simp only [List.cons_append, traceRun]
    cases traceStep m w with
    | none => rfl
    | some m2 => exact ih m2

/-- While mounted, any run of I/O commands is in order and leaves the array mounted. -/
theorem traceRun_io (ws : List Nat)
    (h : ∀ w, w ∈ ws → w >>> 26 = 2 ∨ w >>> 26 = 3 ∨ w >>> 26 = 4) :
    traceRun true ws = some true := by
  induction ws with
  | nil => rfl
  | cons w ws ih =>
    have hw := h w (List.mem_cons_self w ws)
    have hs : traceStep true w = some true := by
      unfold traceStep
      simp only [JBOD_MOUNT, JBOD_UNMOUNT, JBOD_SEEK_TO_DISK, JBOD_SEEK_TO_BLOCK,
        JBOD_READ_BLOCK]
      rcases hw with h2 | h3 | h4
      · simp [h2]
      · simp [h3]
      · simp [h4]
    simp only [traceRun, hs, Option.some_bind]
    exact ih (fun w2 hw2 => h w2 (List.mem_cons_of_mem w hw2))

/-- Every word of `readCommands` is a SeekToDisk, SeekToBlock or ReadBlock word. -/
theorem readCommands_io (addr len : Nat) (ha : addr + len < 1048575) :
    ∀ w, w ∈ readCommands addr len → w >>> 26 = 2 ∨ w >>> 26 = 3 ∨ w >>> 26 = 4 := by
  have d1 := encode_seek_disk_opcode (addr / 65536) (by omega)
  have b1 := encode_seek_block_opcode (addr % 65536 / 256) (by omega)
  have b0 := encode_seek_block_opcode 0 (by omega)
  have r1 : (268435456 : Nat) >>> 26 = 4 := by decide
  intro w hw
  by_cases hs : len ≤ 256 - addr % 65536 % 256
  · rw [readCommands, if_pos hs] at hw
    simp only [List.mem_cons, List.mem_singleton, List.not_mem_nil, or_false] at hw
    rcases hw with h | h | h <;> subst h
    · exact Or.inl d1
    · exact Or.inr (Or.inl b1)
    · exact Or.inr (Or.inr r1)
  · by_cases hblk : addr % 65536 / 256 = 255
    · have d2 := encode_seek_disk_opcode (addr / 65536 + 1) (by omega)
      rw [readCommands, if_neg hs, if_pos hblk] at hw
      simp only [List.mem_append, List.mem_cons, List.mem_singleton, List.not_mem_nil,
        or_false, List.mem_replicate] at hw
      rcases hw with ((((h | h | h) | (h | h)) | h) | (h | h)) | h
      · subst h; exact Or.inl d1
      · subst h; exact Or.inr (Or.inl b1)
      · subst h; exact Or.inr (Or.inr r1)
      · subst h; exact Or.inl d2
      · subst h; exact Or.inr (Or.inl b0)
      · rw [h.2]; exact Or.inr (Or.inr r1)
      · subst h; exact Or.inl d2
      · subst h; exact Or.inr (Or.inl b0)
      · subst h; exact Or.inr (Or.inr r1)
    · rw [readCommands, if_neg hs, if_neg hblk] at hw
      simp only [List.mem_append, List.mem_cons, List.mem_singleton, List.not_mem_nil,
        or_false, List.mem_replicate] at hw
      rcases hw with ((h | h | h) | h) | h
      · subst h; exact Or.inl d1
      · subst h; exact Or.inr (Or.inl b1)
      · subst h; exact Or.inr (Or.inr r1)
      · rw [h.2]; exact Or.inr (Or.inr r1)
      · subst h; exact Or.inr (Or.inr r1)

/-- Every call of `mdadm_read` returns; it keeps the mount flag and the contents,
and appends to the trace only I/O words, none at all when unmounted. -/
theorem mdadm_read_total (st : State) (addr len : Nat) (buf : Option (List Nat)) :
    ∃ (r : ReadResult) (ws : List Nat),
      mdadm_read st addr len buf = some r ∧ r.st.global = st.global ∧
      r.st.dev.contents = st.dev.contents ∧
      r.st.dev.trace = st.dev.trace ++ ws ∧ (st.global = 0 → ws = []) ∧
      ∀ w, w ∈ ws → w >>> 26 = 2 ∨ w >>> 26 = 3 ∨ w >>> 26 = 4 := by
  by_cases h : st.global ≠ 0 ∧ addr + len < 1048575 ∧ len ≤ 1024 ∧ (len = 0 ∨ buf ≠ none)
  · obtain ⟨hg, ha, hl, hb⟩ := h
    cases buf with
    | none =>
      have h0 : len = 0 := by
        rcases hb with h0 | h0
        · exact h0
        · exact absurd rfl h0
      subst h0
      exact ⟨_, [], mdadm_read_zero_null st addr hg (by omega), rfl, rfl,
        (List.append_nil _).symm, fun _ => rfl, fun w hw => absurd hw (List.not_mem_nil w)⟩
    | some b =>
      obtain ⟨r, b2, hr, _, h1, h2, h3, _⟩ := mdadm_read_effect st addr len b hg ha hl
      exact ⟨r, readCommands addr len, hr, h1, h2, h3, fun h0 => absurd h0 hg,
        readCommands_io addr len ha⟩
  · exact ⟨_, [], mdadm_read_reject st addr len buf h, rfl, rfl, (List.append_nil _).symm,
      fun _ => rfl, fun w hw => absurd hw (List.not_mem_nil w)⟩


theorem mdadm_mount_eq (st : State) (h : st.global = 0) :
    mdadm_mount st = (1, ⟨1, { st.dev with trace := st.dev.trace ++ [0] }⟩) := by
  have e0 : encode_op 0 0 0 = 0 := by decide
  simp [mdadm_mount, h, e0, jbod_operation, JBOD_SEEK_TO_DISK, JBOD_SEEK_TO_BLOCK,
    JBOD_READ_BLOCK]

theorem mdadm_mount_eq_fail (st : State) (h : st.global ≠ 0) : mdadm_mount st = (-1, st) := by
  simp [mdadm_mount, h]

theorem mdadm_unmount_eq (st : State) (h : st.global ≠ 0) :
    mdadm_unmount st = (1, ⟨0, { st.dev with trace := st.dev.trace ++ [67108864] }⟩) := by
  have e1 : encode_op 1 0 0 = 67108864 := by decide
  have e2 : (67108864 : Nat) >>> 26 = 1 := by decide
  simp [mdadm_unmount, h, e1, e2, jbod_operation, JBOD_UNMOUNT, JBOD_SEEK_TO_DISK,
    JBOD_SEEK_TO_BLOCK, JBOD_READ_BLOCK]

theorem mdadm_unmount_eq_fail (st : State) (h : st.global = 0) :
    mdadm_unmount st = (-1, st) := by
  simp [mdadm_unmount, h]

/-- One call keeps the trace in step with the mount flag: the words sent since the
start form a well-ordered trace whose observer state is the mount flag. -/
theorem callStep_trace (t0 : List Nat) (st : State) (ws : List Nat) (c : Call)
    (h1 : st.dev.trace = t0 ++ ws)
    (h2 : traceRun false ws = some (decide (st.global ≠ 0))) :
    ∃ (r : Int × State) (ws2 : List Nat),
      callStep st c = some r ∧ r.2.dev.trace = t0 ++ ws2 ∧
      traceRun false ws2 = some (decide (r.2.global ≠ 0)) := by
  cases c with
  | mount =>
    by_cases hg : st.global = 0
    · refine ⟨(1, ⟨1, { st.dev with trace := st.dev.trace ++ [0] }⟩), ws ++ [0],
        congrArg some (mdadm_mount_eq st hg), ?_, ?_⟩
      · show st.dev.trace ++ [0] = t0 ++ (ws ++ [0])
        rw [h1, List.append_assoc]
      · show traceRun false (ws ++ [0]) = some (decide ((1 : Int) ≠ 0))
        rw [traceRun_append, h2]
        simp only [hg, ne_eq, not_true_eq_false, decide_False, Option.some_bind]
        decide
    · exact ⟨_, ws, congrArg some (mdadm_mount_eq_fail st hg), h1, h2⟩
  | unmount =>
    by_cases hg : st.global = 0
    · exact ⟨_, ws, congrArg some (mdadm_unmount_eq_fail st hg), h1, h2⟩
    · refine ⟨(1, ⟨0, { st.dev with trace := st.dev.trace ++ [67108864] }⟩),
        ws ++ [67108864], congrArg some (mdadm_unmount_eq st hg), ?_, ?_⟩
      · show st.dev.trace ++ [67108864] = t0 ++ (ws ++ [67108864])
        rw [h1, List.append_assoc]
      · show traceRun false (ws ++ [67108864]) = some (decide ((0 : Int) ≠ 0))
        rw [traceRun_append, h2]
        simp only [hg, ne_eq, not_false_eq_true, decide_True, Option.some_bind]
        decide
  | read addr len buf =>
    obtain ⟨r, ws1, hr, hgl, _, htr, hnil, hio⟩ := mdadm_read_total st addr len buf
    refine ⟨(r.ret, r.st), ws ++ ws1, ?_, ?_, ?_⟩
    · simp only [callStep, hr, Option.map_some']
    · show r.st.dev.trace = t0 ++ (ws ++ ws1)
      rw [htr, h1, List.append_assoc]
    · show traceRun false (ws ++ ws1) = some (decide (r.st.global ≠ 0))
      rw [hgl]
      by_cases hg : st.global = 0
      · rw [hnil hg, List.append_nil]
        exact h2
      · rw [traceRun_append, h2]
        simp only [hg, ne_eq, not_false_eq_true, decide_True, Option.some_bind]
        exact traceRun_io ws1 hio

/-- A whole sequence of calls keeps the trace in step with the mount flag. -/
theorem runCalls_trace (t0 : List Nat) (calls : List Call) :
    ∀ (st : State) (ws : List Nat), st.dev.trace = t0 ++ ws →
      traceRun false ws = some (decide (st.global ≠ 0)) →
      ∃ (st2 : State) (ws2 : List Nat),
        runCalls st calls = some st2 ∧ st2.dev.trace = t0 ++ ws2 ∧
        traceRun false ws2 = some (decide (st2.global ≠ 0)) := by
  induction calls with
  | nil => intro st ws h1 h2; exact ⟨st, ws, rfl, h1, h2⟩
  | cons c cs ih =>
    intro st ws h1 h2
    obtain ⟨r, ws1, hc, h3, h4⟩ := callStep_trace t0 st ws c h1 h2
    obtain ⟨st2, ws2, hr, h5, h6⟩ := ih r.2 ws1 h3 h4
    refine ⟨st2, ws2, ?_, h5, h6⟩
    simp only [runCalls, hc, Option.some_bind, hr]

/-- C14: for every device and every finite sequence of `mdadm_mount`,
`mdadm_unmount` and `mdadm_read` calls with arbitrary arguments, run from the
initial Unmounted state, the run completes and the commands it sends form a
well-ordered trace: Mount and Unmount alternate beginning with Mount, every
SeekToDisk, SeekToBlock and ReadBlock word comes after a Mount with no Unmount
in between, and the trace ends mounted exactly when the mount flag is set. -/
theorem trace_well_ordered (dev : Jbod) (calls : List Call) :
    ∃ (st2 : State) (ws : List Nat),
      runCalls (initState dev) calls = some st2 ∧
      st2.dev.trace = dev.trace ++ ws ∧
      WellOrdered ws ∧
      traceRun false ws = some (decide (Mounted st2)) := by
  obtain ⟨st2, ws, h1, h2, h3⟩ :=
    runCalls_trace dev.trace calls (initState dev) [] (List.append_nil _).symm rfl
  refine ⟨st2, ws, h1, h2, ?_, h3⟩
  unfold WellOrdered
  rw [h3]
  rfl

/-! ## Sequences of calls: the mount flag -/

/-- One call from a state whose flag is 0 or 1: the flag stays 0 or 1; it goes from
0 to 1 only in a `mdadm_mount` returning 1 and from 1 to 0 only in a
`mdadm_unmount` returning 1; a read, and a mount or unmount that does not return
1, leave it unchanged. -/
theorem callStep_global (st : State) (c : Call) (hst : st.global = 0 ∨ st.global = 1) :
    ∃ r : Int × State, callStep st c = some r ∧
      (r.2.global = 0 ∨ r.2.global = 1) ∧
      (st.global = 0 ∧ r.2.global = 1 → c = Call.mount ∧ r.1 = 1) ∧
      (st.global = 1 ∧ r.2.global = 0 → c = Call.unmount ∧ r.1 = 1) ∧
      ((∃ addr len buf, c = Call.read addr len buf) → r.2.global = st.global) ∧
      (r.1 ≠ 1 → r.2.global = st.global) := by
  cases c with
  | mount =>
    by_cases hg : st.global = 0
    · refine ⟨_, congrArg some (mdadm_mount_eq st hg), Or.inr rfl, fun _ => ⟨rfl, rfl⟩,
        fun h => ?_, fun h => ?_, fun h => absurd rfl h⟩
      · have h2 : (1 : Int) = 0 := h.2
        omega
      · obtain ⟨_, _, _, h⟩ := h
        cases h
    · refine ⟨_, congrArg some (mdadm_mount_eq_fail st hg), hst, fun h => absurd h.1 hg,
        fun h => ?_, fun _ => rfl, fun _ => rfl⟩
      have h1 : st.global = 1 := h.1
      have h0 : st.global = 0 := h.2
      omega
  | unmount =>
    by_cases hg : st.global = 0
    · refine ⟨_, congrArg some (mdadm_unmount_eq_fail st hg), hst, fun h => ?_,
        fun h => ?_, fun _ => rfl, fun _ => rfl⟩
      · have h1 : st.global = 1 := h.2
        omega
      · have h1 : st.global = 1 := h.1
        omega
    · refine ⟨_, congrArg some (mdadm_unmount_eq st hg), Or.inl rfl, fun h => ?_,
        fun _ => ⟨rfl, rfl⟩, fun h => ?_, fun h => absurd rfl h⟩
      · have h2 : (0 : Int) = 1 := h.2
        omega
      · obtain ⟨_, _, _, h⟩ := h
        cases h
  | read addr len buf =>
    obtain ⟨r, ws1, hr, hgl, _⟩ := mdadm_read_total st addr len buf
    refine ⟨(r.ret, r.st), ?_, ?_, fun h => ?_, fun h => ?_, fun _ => hgl, fun _ => hgl⟩
    · simp only [callStep, hr, Option.map_some']
    · show r.st.global = 0 ∨ r.st.global = 1
      rw [hgl]; exact hst
    · have h1 : r.st.global = 1 := h.2
      have h0 : st.global = 0 := h.1
      omega
    · have h1 : r.st.global = 0 := h.2
      have h0 : st.global = 1 := h.1
      omega

/-- After any sequence of calls from a state whose flag is 0 or 1 the flag is 0 or 1. -/
theorem runCalls_global (calls : List Call) :
    ∀ st : State, (st.global = 0 ∨ st.global = 1) →
      ∃ st2 : State, runCalls st calls = some st2 ∧ (st2.global = 0 ∨ st2.global = 1) := by
  induction calls with
  | nil => intro st h; exact ⟨st, rfl, h⟩
  | cons c cs ih =>
    intro st h
    obtain ⟨r, hc, h1, _⟩ := callStep_global st c h
    obtain ⟨st2, hr, h2⟩ := ih r.2 h1
    exact ⟨st2, by simp only [runCalls, hc, Option.some_bind, hr], h2⟩

/-- C15: the flag `global` starts at 0; in every state reached from the initial
state by any sequence of `mdadm_mount`, `mdadm_unmount` and `mdadm_read` calls it
is 0 or 1; and from such a state one more call changes it from 0 to 1 only if the
call is a `mdadm_mount` that returns 1, from 1 to 0 only if it is a
`mdadm_unmount` that returns 1, and leaves it unchanged if it is a `mdadm_read`
or does not return 1 (a failing mount or unmount). -/
theorem global_lifecycle (dev : Jbod) (calls : List Call) :
    (initState dev).global = 0 ∧
    ∃ st : State, runCalls (initState dev) calls = some st ∧
      (st.global = 0 ∨ st.global = 1) ∧
      ∀ c : Call, ∃ r : Int × State, callStep st c = some r ∧
        (r.2.global = 0 ∨ r.2.global = 1) ∧
        (st.global = 0 ∧ r.2.global = 1 → c = Call.mount ∧ r.1 = 1) ∧
        (st.global = 1 ∧ r.2.global = 0 → c = Call.unmount ∧ r.1 = 1) ∧
        ((∃ addr len buf, c = Call.read addr len buf) → r.2.global = st.global) ∧
        (r.1 ≠ 1 → r.2.global = st.global) := by
  refine ⟨rfl, ?_⟩
  obtain ⟨st, hr, hst⟩ := runCalls_global calls (initState dev) (Or.inl rfl)
  exact ⟨st, hr, hst, fun c => callStep_global st c hst⟩

/-- Witness of `global_lifecycle`: mount, a read, unmount on the sample device. -/
theorem global_lifecycle_witness :
    (initState sampleDev).global = 0 ∧
    ∃ st : State,
      runCalls (initState sampleDev) [Call.mount, Call.read 0 16 none, Call.unmount] =
        some st ∧
      (st.global = 0 ∨ st.global = 1) :=
  ⟨(global_lifecycle sampleDev [Call.mount, Call.read 0 16 none, Call.unmount]).1,
    (global_lifecycle sampleDev [Call.mount, Call.read 0 16 none, Call.unmount]).2.elim
      (fun st h => ⟨st, h.1, h.2.1⟩)⟩

/-! ## Repeated reads -/

/-- C16: on a mounted system the value returned by `mdadm_read(addr, len, buf)` and
the bytes it stores in cells `0..len` of a buffer of at least `len` cells depend
only on `addr`, `len` and the device contents: two calls made from states with
the same contents but any cursors, traces and buffers return the same value and,
when they do not fail, leave the same bytes; and a second identical call made
right after the first, from the cursor the first left behind, returns the same
value and leaves the same bytes. -/
theorem mdadm_read_repeatable (st1 st2 : State) (addr len : Nat) (b1 b2 : List Nat)
    (hg1 : Mounted st1) (hg2 : Mounted st2) (hc : st1.dev.contents = st2.dev.contents)
    (hl1 : len ≤ b1.length) (hl2 : len ≤ b2.length) :
    ∃ (r1 r2 r3 : ReadResult) (c1 c2 c3 : List Nat),
      mdadm_read st1 addr len (some b1) = some r1 ∧
      mdadm_read st2 addr len (some b2) = some r2 ∧
      r1.ret = r2.ret ∧ r1.buf = some c1 ∧ r2.buf = some c2 ∧
      (r1.ret ≠ -1 → ∀ i, i < len → c1[i]? = c2[i]?) ∧
      mdadm_read r1.st addr len r1.buf = some r3 ∧
      r3.ret = r1.ret ∧ r3.buf = some c3 ∧
      (∀ i, i < len → c3[i]? = c1[i]?) := by
  by_cases h : addr + len < 1048575 ∧ len ≤ 1024
  · obtain ⟨ha, hl⟩ := h
    obtain ⟨r1, c1, e1, ret1, g1, k1, _, bf1, len1, cell1⟩ :=
      mdadm_read_effect st1 addr len b1 hg1 ha hl
    obtain ⟨r2, c2, e2, ret2, _, _, _, bf2, _, cell2⟩ :=
      mdadm_read_effect st2 addr len b2 hg2 ha hl
    have hg3 : r1.st.global ≠ 0 := by rw [g1]; exact hg1
    obtain ⟨r3, c3, e3, ret3, _, _, _, bf3, _, cell3⟩ :=
      mdadm_read_effect r1.st addr len c1 hg3 ha hl
    refine ⟨r1, r2, r3, c1, c2, c3, e1, e2, by rw [ret1, ret2], bf1, bf2, ?_, ?_,
      by rw [ret3, ret1], bf3, ?_⟩
    · intro _ i hi
      rw [cell1 i, cell2 i, if_pos ⟨hi, by omega⟩, if_pos ⟨hi, by omega⟩, hc]
    · rw [bf1]; exact e3
    · intro i hi
      rw [cell3 i, cell1 i, if_pos ⟨hi, by omega⟩, if_pos ⟨hi, by omega⟩, k1]
  · have n1 : ¬ (st1.global ≠ 0 ∧ addr + len < 1048575 ∧ len ≤ 1024 ∧
        (len = 0 ∨ some b1 ≠ none)) := fun x => h ⟨x.2.1, x.2.2.1⟩
    have n2 : ¬ (st2.global ≠ 0 ∧ addr + len < 1048575 ∧ len ≤ 1024 ∧
        (len = 0 ∨ some b2 ≠ none)) := fun x => h ⟨x.2.1, x.2.2.1⟩
    refine ⟨_, _, _, b1, b2, b1, mdadm_read_reject st1 addr len (some b1) n1,
      mdadm_read_reject st2 addr len (some b2) n2, rfl, rfl, rfl,
      fun x => absurd rfl x, mdadm_read_reject st1 addr len (some b1) n1, rfl, rfl,
      fun _ _ => rfl⟩

/-- Witness of `mdadm_read_repeatable`: the read of 258 bytes at address 255 from two
different cursors into two different buffers. -/
theorem mdadm_read_repeatable_witness :
    ∃ (r1 r2 r3 : ReadResult) (c1 c2 c3 : List Nat),
      mdadm_read ⟨1, sampleDev⟩ 255 258 (some (List.replicate 258 0)) = some r1 ∧
      mdadm_read ⟨1, { sampleDev with disk := 9, block := 200 }⟩ 255 258
        (some (List.replicate 300 1)) = some r2 ∧
      r1.ret = r2.ret ∧ r1.buf = some c1 ∧ r2.buf = some c2 ∧
      (r1.ret ≠ -1 → ∀ i, i < 258 → c1[i]? = c2[i]?) ∧
      mdadm_read r1.st 255 258 r1.buf = some r3 ∧
      r3.ret = r1.ret ∧ r3.buf = some c3 ∧
      (∀ i, i < 258 → c3[i]? = c1[i]?) :=
  mdadm_read_repeatable ⟨1, sampleDev⟩ ⟨1, { sampleDev with disk := 9, block := 200 }⟩
    255 258 (List.replicate 258 0) (List.replicate 300 1) (by decide) (by decide) rfl
    (by rw [List.length_replicate]) (by rw [List.length_replicate]; decide)

/-! ## The `memcpy` calls of an accepted request -/

theorem mdadm_read_loop_copies_done (op : Nat) (v : Locals) (h : ¬ 256 < v.templen) :
    mdadm_read_loop_copies op v = [] := by
  rw [mdadm_read_loop_copies, if_neg h]

theorem mdadm_read_loop_copies_step (v : Locals) (h : 256 < v.templen) :
    mdadm_read_loop_copies 268435456 v =
      (v.newlen, 0, 256) ::
        mdadm_read_loop_copies 268435456
          ⟨{ v.dev with block := v.dev.block + 1, trace := v.dev.trace ++ [268435456] },
           blockBytes v.dev.contents v.dev.disk v.dev.block,
           v.buf.map (fun b =>
             memcpy b v.newlen (blockBytes v.dev.contents v.dev.disk v.dev.block) 0 256),
           sub32 v.templen 256, add32 v.newlen 256⟩ := by
  rw [mdadm_read_loop_copies, if_pos h]
  simp only [jbod_read_block, Option.getD_some]

/-- The copies of the loop: whole blocks, taken from the start of `buf2`, laid one
after the other from `newlen` up to the value of `newlen` at loop exit. -/
theorem mdadm_read_loop_copies_spec (n : Nat) :
    ∀ (v : Locals), v.templen = n →
      v.templen < 4294967296 → v.newlen + v.templen < 4294967296 →
      (∀ rest : List (Nat × Nat × Nat),
        contiguousFrom v.newlen (mdadm_read_loop_copies 268435456 v ++ rest) =
          contiguousFrom (mdadm_read_loop 268435456 v).newlen rest) ∧
      (∀ c, c ∈ mdadm_read_loop_copies 268435456 v → c.2.1 = 0 ∧ c.2.2 = 256) := by
  induction n using Nat.strong_induction_on with
  | _ n ih =>
    intro v hn ht hnl
    by_cases h : 256 < v.templen
    · rw [mdadm_read_loop_copies_step v h, mdadm_read_loop_step v h]
      have hsub : sub32 v.templen 256 = v.templen - 256 := by
        simp only [sub32]; omega
      have hadd : add32 v.newlen 256 = v.newlen + 256 := by
        simp only [add32]; omega
      rw [hsub, hadd]
      obtain ⟨h1, h2⟩ := ih (v.templen - 256) (by omega)
        ⟨{ v.dev with block := v.dev.block + 1, trace := v.dev.trace ++ [268435456] },
         blockBytes v.dev.contents v.dev.disk v.dev.block,
         v.buf.map (fun b =>
           memcpy b v.newlen (blockBytes v.dev.contents v.dev.disk v.dev.block) 0 256),
         v.templen - 256, v.newlen + 256⟩
        rfl (by simp only; omega) (by simp only; omega)
      refine ⟨fun rest => ?_, fun c hc => ?_⟩
      · rw [List.cons_append, contiguousFrom, if_pos rfl]
        exact h1 rest
      · rcases List.mem_cons.mp hc with hc1 | hc1
        · subst hc1; exact ⟨rfl, rfl⟩
        · exact h2 c hc1
    · rw [mdadm_read_loop_copies_done _ v h, mdadm_read_loop_done _ v h]
      exact ⟨fun rest => rfl, fun c hc => absurd hc (List.not_mem_nil c)⟩

/-- The copies made on the single-block path. -/
theorem mdadm_read_copies_single (st : State) (addr len : Nat) (b : List Nat)
    (hg : st.global ≠ 0) (ha : addr + len < 1048575)
    (hs : len ≤ 256 - addr % 65536 % 256) :
    mdadm_read_copies st addr len (some b) = [(0, addr % 65536 % 256, len)] := by
  unfold mdadm_read_copies
  have h2 : ¬ (addr < 0 ∨ addr > 1048576 - 1) := by omega
  have h3 : ¬ ((len + addr) % 4294967296 ≥ 1048576 - 1) := by omega
  have h4 : ¬ (len > 1024) := by omega
  have h5 : ¬ (len ≠ 0 ∧ (some b : Option (List Nat)) = none) := by simp
  have h6 : ¬ (len = 0 ∧ (some b : Option (List Nat)) = none) := by simp
  rw [if_neg hg, if_neg h2, if_neg h3, if_neg h4, if_neg h5, if_neg h6]
  simp only [translated_addr, JBOD_DISK_SIZE, JBOD_BLOCK_SIZE]
  rw [seek_eq st.dev (addr / 65536) (addr % 65536 / 256) (by omega) (by omega)]
  simp only [if_pos hs]

/-- The copies made on the multi-block path: the tail of the first block, the
copies of the loop, and the last copy of `templen` bytes at `newlen`. -/
theorem mdadm_read_copies_multi (st : State) (addr len : Nat) (b : List Nat)
    (hg : st.global ≠ 0) (ha : addr + len < 1048575) (hl : len ≤ 1024)
    (hm : ¬ len ≤ 256 - addr % 65536 % 256) :
    ∃ dev2 : Jbod,
      mdadm_read_copies st addr len (some b) =
        [(0, addr % 65536 % 256, 256 - addr % 65536 % 256)] ++
        mdadm_read_loop_copies 268435456 (loopEntry dev2 st.dev.contents addr len b) ++
        [((mdadm_read_loop 268435456 (loopEntry dev2 st.dev.contents addr len b)).newlen, 0,
          (mdadm_read_loop 268435456 (loopEntry dev2 st.dev.contents addr len b)).templen)] := by
  unfold mdadm_read_copies
  have h2 : ¬ (addr < 0 ∨ addr > 1048576 - 1) := by omega
  have h3 : ¬ ((len + addr) % 4294967296 ≥ 1048576 - 1) := by omega
  have h4 : ¬ (len > 1024) := by omega
  have h5 : ¬ (len ≠ 0 ∧ (some b : Option (List Nat)) = none) := by simp
  have h6 : ¬ (len = 0 ∧ (some b : Option (List Nat)) = none) := by simp
  rw [if_neg hg, if_neg h2, if_neg h3, if_neg h4, if_neg h5, if_neg h6]
  simp only [translated_addr, JBOD_DISK_SIZE, JBOD_BLOCK_SIZE]
  rw [seek_eq st.dev (addr / 65536) (addr % 65536 / 256) (by omega) (by omega)]
  have hsub : sub32 len (256 - addr % 65536 % 256) = len - (256 - addr % 65536 % 256) := by
    simp only [sub32]; omega
  by_cases hblk : addr % 65536 / 256 = 255
  · have hd : addr / 65536 + 1 ≤ 15 := by omega
    simp only [encode_read, jbod_read_block, if_neg hm, if_pos hblk, Option.getD_some,
      Option.map_some', hsub, seek_eq _ (addr / 65536 + 1) 0 hd (by omega)]
    exact ⟨_, rfl⟩
  · simp only [encode_read, jbod_read_block, if_neg hm, if_neg hblk, Option.getD_some,
      Option.map_some', hsub]
    exact ⟨_, rfl⟩

/-- C18: for an accepted request with a non-null destination, the `memcpy` calls of
`mdadm_read` form chunks that follow one another from index 0 to index `len`
without gap or overlap, so each index below `len` is written exactly once and
nothing at or above `len` is written; when `len >= 1` every chunk is non-empty,
so the chunks are strictly increasing; every copy reads inside the 256-byte
scratch block (source offset + count <= 256); and in the buffer left by the call
every cell at an index `>= len` is unchanged, the length is unchanged, and every
cell below `len` has been overwritten. -/
theorem mdadm_read_copies_spec (st : State) (addr len : Nat) (b : List Nat)
    (hg : Mounted st) (ha : addr + len < 1048575) (hl : len ≤ 1024) :
    contiguousFrom 0 (mdadm_read_copies st addr len (some b)) = some len ∧
    (∀ c, c ∈ mdadm_read_copies st addr len (some b) → c.2.1 + c.2.2 ≤ 256) ∧
    (1 ≤ len → ∀ c, c ∈ mdadm_read_copies st addr len (some b) → 1 ≤ c.2.2) ∧
    ∃ (r : ReadResult) (b2 : List Nat),
      mdadm_read st addr len (some b) = some r ∧ r.buf = some b2 ∧
      b2.length = b.length ∧
      (∀ i, len ≤ i → b2[i]? = b[i]?) ∧
      (∀ i, i < len → i < b.length →
        b2[i]? = some (deliveredByte st.dev.contents addr len i)) := by
  have hbuf : ∃ (r : ReadResult) (b2 : List Nat),
      mdadm_read st addr len (some b) = some r ∧ r.buf = some b2 ∧
      b2.length = b.length ∧
      (∀ i, len ≤ i → b2[i]? = b[i]?) ∧
      (∀ i, i < len → i < b.length →
        b2[i]? = some (deliveredByte st.dev.contents addr len i)) := by
    obtain ⟨r, b2, e, _, _, _, _, bf, hlen, cell⟩ := mdadm_read_effect st addr len b hg ha hl
    refine ⟨r, b2, e, bf, hlen, fun i hi => ?_, fun i h1 h2 => ?_⟩
    · rw [cell i, if_neg (by omega)]
    · rw [cell i, if_pos ⟨h1, h2⟩]
  by_cases hs : len ≤ 256 - addr % 65536 % 256
  · rw [mdadm_read_copies_single st addr len b hg ha hs]
    refine ⟨?_, fun c hc => ?_, fun h1 c hc => ?_, hbuf⟩
    · simp only [contiguousFrom, if_true, Nat.zero_add]
    · rw [List.mem_singleton.mp hc]
      show addr % 65536 % 256 + len ≤ 256
      omega
    · rw [List.mem_singleton.mp hc]
      exact h1
  · obtain ⟨dev2, hcp⟩ := mdadm_read_copies_multi st addr len b hg ha hl hs
    obtain ⟨k, b3, h1, h2, h3, h4, _⟩ :=
      mdadm_read_loop_entry dev2 st.dev.contents addr len b hl hs
    obtain ⟨g1, g2⟩ := mdadm_read_loop_copies_spec _
      (loopEntry dev2 st.dev.contents addr len b) rfl
      (by simp only [loopEntry]; omega) (by simp only [loopEntry]; omega)
    rw [hcp]
    refine ⟨?_, fun c hc => ?_, fun _ c hc => ?_, hbuf⟩
    · rw [List.append_assoc, List.singleton_append, contiguousFrom, if_pos rfl]
      have g := g1 [((mdadm_read_loop 268435456
        (loopEntry dev2 st.dev.contents addr len b)).newlen, 0,
        (mdadm_read_loop 268435456 (loopEntry dev2 st.dev.contents addr len b)).templen)]
      simp only [loopEntry] at g
      simp only [loopEntry, Nat.zero_add]
      rw [g]
      simp only [contiguousFrom, if_true]
      simp only [loopEntry] at h1 h4
      rw [h4]
      congr 1
      omega
    · simp only [List.mem_append, List.mem_singleton] at hc
      rcases hc with (hc | hc) | hc
      · rw [hc]
        show addr % 65536 % 256 + (256 - addr % 65536 % 256) ≤ 256
        omega
      · obtain ⟨e1, e2⟩ := g2 c hc
        omega
      · rw [hc]
        show 0 + (mdadm_read_loop 268435456
          (loopEntry dev2 st.dev.contents addr len b)).templen ≤ 256
        omega
    · simp only [List.mem_append, List.mem_singleton] at hc
      rcases hc with (hc | hc) | hc
      · rw [hc]
        show 1 ≤ 256 - addr % 65536 % 256
        omega
      · obtain ⟨e1, e2⟩ := g2 c hc
        omega
      · rw [hc]
        exact h3

/-- Witness of `mdadm_read_copies_spec`: 1024 bytes at address 100 into a buffer of
1100 cells. -/
theorem mdadm_read_copies_spec_witness :
    contiguousFrom 0
      (mdadm_read_copies ⟨1, sampleDev⟩ 100 1024 (some (List.replicate 1100 9))) =
      some 1024 ∧
    (∀ c, c ∈ mdadm_read_copies ⟨1, sampleDev⟩ 100 1024 (some (List.replicate 1100 9)) →
      c.2.1 + c.2.2 ≤ 256) ∧
    ∃ (r : ReadResult) (b2 : List Nat),
      mdadm_read ⟨1, sampleDev⟩ 100 1024 (some (List.replicate 1100 9)) = some r ∧
      r.buf = some b2 ∧ b2.length = (List.replicate 1100 9).length ∧
      (∀ i, 1024 ≤ i → b2[i]? = (List.replicate 1100 9)[i]?) :=
  have h := mdadm_read_copies_spec ⟨1, sampleDev⟩ 100 1024 (List.replicate 1100 9)
    (by decide) (by decide) (by decide)
  ⟨h.1, h.2.1, h.2.2.2.elim (fun r hr => hr.elim (fun b2 hb =>
    ⟨r, b2, hb.1, hb.2.1, hb.2.2.1, hb.2.2.2.1⟩))⟩

end Mdadm
